import Mathlib

/-!
Verification of the `better-neotext` modal terminal editor against its
specification.  The data model and the operations are shallowly embedded
from the Rust sources (`src/buffer.rs`, `src/common.rs`, `src/cursor.rs`,
`src/viewport.rs`, `src/editor.rs`): lines are lists of characters, line
vectors are lists of lines, and fallible operations return an explicit
outcome type whose `panicked` constructor records an out-of-bounds vector
or string index (a Rust panic).
-/

set_option maxHeartbeats 1000000

namespace Neotext

/-- `LineCol` from `src/common.rs`: a pair of non-negative line/column indices. -/
structure LineCol where
  line : Nat
  col : Nat
deriving DecidableEq, Repr

/-- Lexicographic strict order on `LineCol` (the `PartialOrd` impl in `src/common.rs`). -/
def LineCol.lexLt (a b : LineCol) : Prop :=
  a.line < b.line ∨ (a.line = b.line ∧ a.col < b.col)

/-- Lexicographic order on `LineCol`. -/
def LineCol.lexLe (a b : LineCol) : Prop :=
  a.line < b.line ∨ (a.line = b.line ∧ a.col ≤ b.col)

instance (a b : LineCol) : Decidable (a.lexLt b) := by
  unfold LineCol.lexLt; exact inferInstance

instance (a b : LineCol) : Decidable (a.lexLe b) := by
  unfold LineCol.lexLe; exact inferInstance

/-- The error taxonomy of `src/error.rs` (the wrapped I/O error is irrelevant here). -/
inductive Error where
  | InvalidPosition
  | ExitCall
  | InvalidRange (f t : LineCol)
  | InvalidLineNumber
  | InvalidInput
  | PatternNotFound
  | NoCommandAvailable
  | UnexpectedRegisterData
  | ProgrammingBug
  | NowhereToGo
  | ImATeacup
deriving DecidableEq, Repr

/-- Result of running a Rust operation: success, a returned `Err`, or a panic
(out-of-bounds indexing / slicing).  Panics never yield a successor state. -/
inductive Outcome (α : Type) where
  | ok (a : α)
  | err (e : Error)
  | panicked
deriving Repr, DecidableEq

/-- `FindDirection` of `src/common.rs`. -/
inductive FindDirection where
  | Forwards
  | Backwards
deriving DecidableEq, Repr

/-- `Modal` of `src/common.rs`. -/
inductive Modal where
  | Normal
  | Insert
  | Visual
  | VisualLine
  | Find (d : FindDirection)
  | Command
deriving DecidableEq, Repr

/-- `Command` of `src/common.rs` (command-line grammar). -/
inductive Command where
  | Find (s : List Char)
  | Rfind (s : List Char)
  | Exit
  | None
deriving DecidableEq, Repr

/-- `BaseAction` of `src/common.rs`.  `Lazy<LineCol>` is a single-cell thunk,
embedded as `Option LineCol` (`none` = unevaluated). -/
inductive BaseAction where
  | Save
  | MoveUp (n : Nat)
  | MoveDown (n : Nat)
  | MoveRight (n : Nat)
  | MoveLeft (n : Nat)
  | SetCursor (lc : LineCol)
  | ChangeMode (m : Modal)
  | Yank
  | Paste (r : Char) (n : Nat)
  | InsertAt (l : Option LineCol) (c : Char)
  | InsertLineAt (l : Option LineCol) (n : Nat)
  | DeleteAt (l : Option LineCol) (n : Nat)
  | DeleteLineAt (l : Option LineCol) (n : Nat)
  | ExecuteCommand (c : Command)
  | Undo (n : Nat)
  | Redo (n : Nat)
  | FetchFromHistory
  | GetUnderCursor
  | OpenFile
  | Nothing
deriving DecidableEq, Repr

/-- A line of text; Rust `String` restricted to its character content. -/
abbrev Line := List Char

/-- `StateCapsule` of `src/buffer.rs`: a full normal-plane snapshot plus the
cursor position at save time. -/
structure StateCapsule where
  content : List Line
  loc : LineCol
deriving DecidableEq, Repr

/-- `Stack::push` of `src/buffer.rs`: push to the front, then truncate to at
most 1000 entries. -/
def stackPush (s : List StateCapsule) (el : StateCapsule) : List StateCapsule :=
  (el :: s).take 1000

/-- `BufferPlane` of `src/buffer.rs`. -/
inductive BufferPlane where
  | Normal
  | Terminal
  | Command
deriving DecidableEq, Repr

/-- `VecBuffer` of `src/buffer.rs`: three planes, undo/redo stacks, active plane. -/
structure VecBuffer where
  text : List Line
  terminal : List Line
  command : List Line
  past : List StateCapsule
  future : List StateCapsule
  plane : BufferPlane
deriving DecidableEq, Repr

namespace VecBuffer

/-- `VecBuffer::default()`. -/
def default : VecBuffer :=
  { text := [[]], terminal := [[]], command := [[]],
    past := [], future := [], plane := .Normal }

/-- `VecBuffer::new(text)`. -/
def new (text : List Line) : VecBuffer :=
  { text := text, terminal := [[]], command := [[]],
    past := [], future := [], plane := .Normal }

/-- `VecBuffer::get_buffer` (and `get_mut_buffer`): the active plane's lines. -/
def getBuffer (b : VecBuffer) : List Line :=
  match b.plane with
  | .Normal => b.text
  | .Terminal => b.terminal
  | .Command => b.command

/-- Writing back through `get_mut_buffer`: replace the active plane's lines. -/
def setBuffer (b : VecBuffer) (ls : List Line) : VecBuffer :=
  match b.plane with
  | .Normal => { b with text := ls }
  | .Terminal => { b with terminal := ls }
  | .Command => { b with command := ls }

/-- `TextBuffer::max_line` for `VecBuffer`: normal-plane line count minus one
(saturating). -/
def max_line (b : VecBuffer) : Nat :=
  b.text.length - 1

/-- `TextBuffer::set_plane`. -/
def set_plane (b : VecBuffer) (m : Modal) : VecBuffer :=
  match m with
  | .Command | .Find _ => { b with plane := .Command }
  | .Normal | .Insert | .Visual | .VisualLine => { b with plane := .Normal }

/-- `TextBuffer::clear_command`: clear the command plane, then push one empty line. -/
def clear_command (b : VecBuffer) : VecBuffer :=
  { b with command := [[]] }

/-- `VecBuffer::insert` (`src/buffer.rs:314`).  The source guard is
`at.line > len || at.col > buffer[at.line].len()`: when `at.line` equals the
line count the first disjunct is false and the indexing in the second
disjunct panics. -/
def insert (b : VecBuffer) (at_ : LineCol) (ch : Char) : Outcome VecBuffer :=
  let buf := b.getBuffer
  if at_.line > buf.length then .err .InvalidPosition
  else match buf[at_.line]? with
    | none => .panicked
    | some l =>
      if at_.col > l.length then .err .InvalidPosition
      else .ok (b.setBuffer (buf.set at_.line (l.take at_.col ++ [ch] ++ l.drop at_.col)))

/-- `VecBuffer::insert_newline`: insert an empty line at index `at.line + 1`
(`Vec::insert` panics when the index exceeds the vector length). -/
def insert_newline (b : VecBuffer) (at_ : LineCol) : Outcome VecBuffer :=
  let buf := b.getBuffer
  if at_.line + 1 > buf.length then .panicked
  else .ok (b.setBuffer (buf.take (at_.line + 1) ++ [[]] ++ buf.drop (at_.line + 1)))

/-- `VecBuffer::delete` (`src/buffer.rs:663`). -/
def delete (b : VecBuffer) (at_ : LineCol) : Outcome (VecBuffer × LineCol) :=
  let buf := b.getBuffer
  if h : at_.line ≥ buf.length then .err .InvalidPosition
  else
    let l := buf.get ⟨at_.line, by omega⟩
    if at_.col > l.length then .err .InvalidPosition
    else if at_.col = 0 then
      if at_.line = 0 then .err .ImATeacup
      else
        let buf1 := buf.take at_.line ++ buf.drop (at_.line + 1)
        match buf1[at_.line - 1]? with
        | none => .panicked
        | some prev =>
          .ok (b.setBuffer (buf1.set (at_.line - 1) (prev ++ l)),
               ⟨at_.line - 1, prev.length⟩)
    else
      .ok (b.setBuffer (buf.set at_.line (l.take (at_.col - 1) ++ l.drop at_.col)),
           ⟨at_.line, at_.col - 1⟩)

end VecBuffer

/-- Strip one trailing carriage return, as Rust's `str::lines` does per segment. -/
def stripCR (l : Line) : Line :=
  if l.getLast? = some '\r' then l.dropLast else l

/-- Rust `str::lines`: split on `'\n'`, stripping a trailing `'\r'` from each
segment; a final empty segment produced by a trailing newline is dropped, and
the empty string yields no lines at all. -/
def rustLines (text : List Char) : List Line :=
  if text = [] then []
  else
    let segs := text.splitOn '\n'
    let segs := if segs.getLast? = some [] then segs.dropLast else segs
    segs.map stripCR

/-- `last_mut().push_str(suffix)`: append `suffix` to the final element.
Callers guarantee non-emptiness (the source unwraps). -/
def appendToLast (suffix : Line) : List Line → List Line
  | [] => []
  | [l] => [l ++ suffix]
  | l :: l' :: ls => l :: appendToLast suffix (l' :: ls)

namespace VecBuffer

/-- `VecBuffer::delete_selection` (`src/buffer.rs:615`): remove the half-open
range `[from, to)`.  With `from.col == 0` and `to.col` at or past the end of
line `to.line`, whole lines `from.line..=to.line` are drained. -/
def delete_selection (b : VecBuffer) (f t : LineCol) : Outcome VecBuffer :=
  let buf := b.getBuffer
  if f.line ≥ buf.length ∨ t.line ≥ buf.length ∨
     (f.line = t.line ∧ f.col > t.col) ∨ f.line > t.line ∨ f = t then
    .err (.InvalidRange f t)
  else
    match buf[t.line]? with
    | none => .panicked
    | some toLine =>
      if f.col = 0 ∧ t.col ≥ toLine.length then
        .ok (b.setBuffer (buf.take f.line ++ buf.drop (t.line + 1)))
      else if f.line = t.line then
        -- the first inner branch repeats the drained case and is unreachable
        if f.col = 0 ∧ t.col ≥ toLine.length then
          .ok (b.setBuffer (buf.take f.line ++ buf.drop (f.line + 1)))
        else if t.col ≥ toLine.length then
          .ok (b.setBuffer (buf.set f.line (toLine.take f.col)))
        else
          .ok (b.setBuffer (buf.set f.line (toLine.take f.col ++ toLine.drop t.col)))
      else
        -- `split_off(to.col)` panics when `to.col` exceeds the line length
        if t.col > toLine.length then .panicked
        else
          match buf[f.line]? with
          | none => .panicked
          | some fromLine =>
            let newFrom := fromLine.take f.col ++ toLine.drop t.col
            let buf1 := buf.set f.line newFrom
            .ok (b.setBuffer (buf1.take (f.line + 1) ++ buf1.drop (t.line + 1)))

/-- `VecBuffer::replace` (`src/buffer.rs:472`): splice `lines(text)` over the
range, keeping the head of line `from.line` before `from.col` and the tail of
line `to.line` from `to.col`.  No range checks: out-of-bounds indices or an
inverted line range panic. -/
def replace (b : VecBuffer) (f t : LineCol) (text : List Char) : Outcome VecBuffer :=
  if text = [] then .err .InvalidInput
  else
    let buf := b.getBuffer
    match buf[f.line]? with
    | none => .panicked
    | some fromLine =>
      if f.col > fromLine.length then .panicked
      else
        let ls := rustLines text
        let newLines :=
          match ls with
          | [] => [fromLine.take f.col]
          | l0 :: rest => (fromLine.take f.col ++ l0) :: rest
        match buf[t.line]? with
        | none => .panicked
        | some toLine =>
          if t.col > toLine.length then .panicked
          else
            let newLines := appendToLast (toLine.drop t.col) newLines
            if f.line > t.line + 1 then .panicked
            else .ok (b.setBuffer (buf.take f.line ++ newLines ++ buf.drop (t.line + 1)))

/-- `VecBuffer::insert_text` (`src/buffer.rs:531`).  Returns the buffer and
the resulting cursor position. -/
def insert_text (b : VecBuffer) (at_ : LineCol) (text : List Char) (newline : Bool) :
    Outcome (VecBuffer × LineCol) :=
  let buf := b.getBuffer
  if h : at_.line ≥ buf.length then .err .InvalidPosition
  else
    let l := buf.get ⟨at_.line, by omega⟩
    if at_.col > l.length then .err .InvalidPosition
    else if text = [] then .err .InvalidInput
    else
      let ls := rustLines text
      if newline then
        .ok (b.setBuffer (buf.take (at_.line + 1) ++ ls ++ buf.drop (at_.line + 1)),
             ⟨at_.line + 1, 0⟩)
      else
        match ls with
        | [] => .panicked -- `lines[0]` on an empty split; unreachable for non-empty text
        | l0 :: rest =>
          let tail := l.drop at_.col
          let cur := l.take at_.col ++ l0
          if rest = [] then
            .ok (b.setBuffer (buf.set at_.line (cur ++ tail)), at_)
          else
            let rest' := appendToLast tail rest
            let buf1 := buf.set at_.line cur
            .ok (b.setBuffer (buf1.take (at_.line + 1) ++ rest' ++ buf1.drop (at_.line + 1)),
                 at_)

/-- `VecBuffer::undo` (`src/buffer.rs:340`): pop the past stack, install the
snapshot as the normal plane, push the replaced text onto the future stack. -/
def undo (b : VecBuffer) (at_ : LineCol) : Outcome VecBuffer :=
  match b.past with
  | [] => .err .NowhereToGo
  | caps :: rest =>
    .ok { b with text := caps.content, past := rest,
                 future := stackPush b.future ⟨b.text, at_⟩ }

/-- `VecBuffer::redo` (`src/buffer.rs:323`): mirror of `undo`. -/
def redo (b : VecBuffer) (at_ : LineCol) : Outcome VecBuffer :=
  match b.future with
  | [] => .err .NowhereToGo
  | caps :: rest =>
    .ok { b with text := caps.content, future := rest,
                 past := stackPush b.past ⟨b.text, at_⟩ }

/-- `VecBuffer::delete_line` (`src/buffer.rs:281`): `Vec::remove` on the
normal plane (panics when the index is out of bounds). -/
def delete_line (b : VecBuffer) (at_ : Nat) : Outcome VecBuffer :=
  if at_ ≥ b.text.length then .panicked
  else .ok { b with text := b.text.take at_ ++ b.text.drop (at_ + 1) }

/-- The blanket `impl<T: TextBuffer> Component for T` (`src/buffer.rs:175`):
only `InsertAt`, `DeleteAt`, `DeleteLineAt`, `InsertLineAt` and `ChangeMode`
are handled; every other primitive — `Undo` and `Redo` included — falls into
the wildcard arm and leaves the buffer untouched. -/
def executeAction (b : VecBuffer) (a : BaseAction) : Outcome VecBuffer :=
  match a with
  | .InsertAt lc ch =>
    match lc with
    | none => .panicked -- `clone_inner` unwraps an unevaluated lazy
    | some lc => b.insert lc ch
  | .DeleteAt lc rep =>
    match lc with
    | none => .err .ProgrammingBug -- `verify_lazy_values`
    | some start => b.delete_selection start ⟨start.line, start.col + rep⟩
  | .DeleteLineAt lc rep =>
    match lc with
    | none => .err .ProgrammingBug
    | some start => b.delete_selection start ⟨start.line + rep, start.col⟩
  | .InsertLineAt lc _rep =>
    match lc with
    | none => .err .ProgrammingBug
    | some start => b.insert_newline start
  | .ChangeMode m => .ok (b.set_plane m)
  | _ => .ok b

end VecBuffer

/-- `ViewPort` of `src/viewport.rs` (the terminal handle is irrelevant here). -/
structure ViewPort where
  width : Nat
  height : Nat
  top_border : Nat
  bottom_border : Nat
  mode : Modal
deriving DecidableEq, Repr

namespace ViewPort

/-- `ViewPort::scroll_up`: shift both borders up by `min(dist, top_border)`. -/
def scroll_up (v : ViewPort) (dist : Nat) : ViewPort :=
  let actual := if v.top_border ≥ dist then dist else v.top_border
  { v with top_border := v.top_border - actual,
           bottom_border := v.bottom_border - actual }

/-- `ViewPort::scroll_down`: shift both borders down by `dist`. -/
def scroll_down (v : ViewPort) (dist : Nat) : ViewPort :=
  { v with top_border := v.top_border + dist,
           bottom_border := v.bottom_border + dist }

/-- `impl Component for ViewPort` (`src/viewport.rs:31`).  In the source the
match lists `ChangeMode`, then the wildcard `_ => ()`, and only afterwards the
`MoveUp`/`MoveDown` arms; match arms are tried in order, so those two arms are
unreachable and scrolling never happens. -/
def executeAction (v : ViewPort) (a : BaseAction) : ViewPort :=
  match a with
  | .ChangeMode m => { v with mode := m }
  | _ => v

end ViewPort

/-- `CursorPlane` of `src/cursor.rs`. -/
inductive CursorPlane where
  | Text
  | CommandBar
  | Terminal
deriving DecidableEq, Repr

/-- `Cursor` of `src/cursor.rs`. -/
structure Cursor where
  pos : LineCol
  previous_pos : LineCol
  pos_initial : LineCol
  plane : CursorPlane
  last_text_mode_pos : LineCol
deriving DecidableEq, Repr

/-- `Action` of `src/editor.rs`: the high-level intents produced by decoding. -/
inductive Action where
  | Quit
  | Save
  | BumpUp
  | BumpDown
  | BumpLeft
  | BumpRight
  | JumpUp
  | JumpDown
  | JumpToNextWord
  | JumpToNextSymbol
  | ReverseJumpToNextWord
  | ReverseJumpToNextSymbol
  | JumpSOL
  | JumpEOL
  | JumpSOF
  | JumpEOF
  | ChangeMode (m : Modal)
  | InsertModeEOL
  | Find (s : List Char)
  | ReverseFind (s : List Char)
  | FindChar (c : Char)
  | ReverseFindChar (c : Char)
  | ReverseToChar (c : Char)
  | ToChar (c : Char)
  | Replace (c : Char)
  | InsertCharAtCursor (c : Char)
  | InsertNewLine
  | InsertModeBelow
  | InsertModeAbove
  | DeleteBeforeCursor
  | DeleteAtCursor
  | Yank
  | Paste (r : Char)
  | PasteNewline (r : Char)
  | PasteAbove (r : Char)
  | FetchFromHistory
  | ExecuteCommand (c : Command)
  | Undo (n : Nat)
  | Redo
  | OpenFile
  | Nothing
deriving DecidableEq, Repr

namespace Cursor

/-- `Cursor::default()`. -/
def default : Cursor :=
  { pos := ⟨0, 0⟩, previous_pos := ⟨0, 0⟩, pos_initial := ⟨0, 0⟩,
    plane := .Text, last_text_mode_pos := ⟨0, 0⟩ }

/-- `JUMP_DIST` of `src/cursor.rs`. -/
def jumpDist : Nat := 25

/-- `Cursor::mod_change` (`src/cursor.rs:198`): the mode-change transition.
From a text plane the current position is saved to `last_text_mode_pos`
(column forced to 0 for VisualLine); entering Command/Find moves to `(0,0)`
on the command plane, entering a text mode restores `last_text_mode_pos`. -/
def mod_change (c : Cursor) (m : Modal) : Cursor :=
  let c :=
    if c.plane = .Text then
      { c with
        last_text_mode_pos :=
          if m = .VisualLine then ⟨c.pos.line, 0⟩ else c.pos,
        previous_pos := c.pos }
    else c
  let c :=
    match m with
    | .Command | .Find _ => { c with plane := .CommandBar, pos := ⟨0, 0⟩ }
    | .Normal | .Insert | .Visual | .VisualLine =>
      { c with plane := .Text, pos := c.last_text_mode_pos }
  { c with pos_initial := c.pos }

/-- `impl Component for Cursor` (`src/cursor.rs:72`).  The match covers the
bump and jump movements and `SetCursor`; everything else — `ChangeMode`
included — falls into the wildcard arm `_ => ()`, so `mod_change` is never
invoked.  (The impl in the source matches on the intent type `Action`, not on
the primitive `BaseAction` the `Component` trait prescribes.) -/
def executeAction (c : Cursor) (a : Action) : Cursor :=
  match a with
  | .BumpUp => if c.pos.line ≠ 0 then { c with pos := ⟨c.pos.line - 1, c.pos.col⟩ } else c
  | .BumpDown => { c with previous_pos := c.pos, pos := ⟨c.pos.line + 1, c.pos.col⟩ }
  | .BumpLeft =>
    if c.pos.col ≠ 0 then
      { c with previous_pos := c.pos, pos := ⟨c.pos.line, c.pos.col - 1⟩ }
    else { c with previous_pos := c.pos }
  | .BumpRight => { c with previous_pos := c.pos, pos := ⟨c.pos.line, c.pos.col + 1⟩ }
  | .JumpUp =>
    -- `jump_up`: `self.line() - dist` on `usize` (underflow not checked here)
    { c with previous_pos := c.pos, pos := ⟨c.pos.line - jumpDist, c.pos.col⟩ }
  | .JumpDown => { c with previous_pos := c.pos, pos := ⟨c.pos.line + jumpDist, c.pos.col⟩ }
  | .JumpSOL => { c with previous_pos := c.pos, pos := ⟨c.pos.line, 0⟩ }
  | .JumpSOF => { c with previous_pos := c.pos, pos := ⟨0, c.pos.col⟩ }
  -- the source also lists an `Action::SetCursor` arm, but no such variant
  -- exists in the `Action` enum of `src/editor.rs`
  | _ => c

end Cursor

/-- The previous-key branch of `Editor::interpret_normal_event`
(`src/editor.rs:112`): decodes the second keystroke of a two-keystroke
sequence.  Both `t` and `f` map to `FindChar`, both `T` and `F` to
`ReverseFindChar`; the `ToChar`/`ReverseToChar` intents are never produced. -/
def interpretNormalPrevKey (prev : Char) (c : Char) : Action :=
  match prev with
  | 't' => .FindChar c
  | 'T' => .ReverseFindChar c
  | 'f' => .FindChar c
  | 'F' => .ReverseFindChar c
  | 'r' => .Replace c
  | 'p' => .Paste c
  | 'P' => .PasteAbove c
  | _ => .Nothing

/-- `Iterator::position`: index of the first element satisfying `p`. -/
def position (p : Char → Bool) : List Char → Option Nat
  | [] => none
  | c :: cs => if p c then some 0 else (position p cs).map (· + 1)

/-- `find_pattern` of the char-predicate `Pattern` impl (`src/common.rs:174`):
the first line containing a satisfying character, with the first satisfying
column within it. -/
def findPattern (p : Char → Bool) : List Line → Option LineCol
  | [] => none
  | l :: ls =>
    match position p l with
    | some c => some ⟨0, c⟩
    | none => (findPattern p ls).map (fun lc => ⟨lc.line + 1, lc.col⟩)

/-- `rfind_pattern` of the char-predicate `Pattern` impl (`src/common.rs:185`):
the last line containing a satisfying character; the reported column is
`line.len() - rcol` where `rcol` is the position of the first satisfying
character of the reversed line. -/
def rfindPattern (p : Char → Bool) : List Line → Option LineCol
  | [] => none
  | l :: ls =>
    match rfindPattern p ls with
    | some lc => some ⟨lc.line + 1, lc.col⟩
    | none => (position p l.reverse).map (fun rcol => ⟨0, l.length - rcol⟩)

/-- Position `lc` carries a character satisfying `p` in `lines`. -/
def satAt (p : Char → Bool) (lines : List Line) (lc : LineCol) : Prop :=
  ∃ l, lines[lc.line]? = some l ∧ ∃ c, l[lc.col]? = some c ∧ p c = true

instance (p : Char → Bool) (lines : List Line) (lc : LineCol) :
    Decidable (satAt p lines lc) := by
  unfold satAt
  cases lines[lc.line]? with
  | none => exact isFalse (by rintro ⟨l, h, -⟩; cases h)
  | some l =>
    cases hc : l[lc.col]? with
    | none =>
      exact isFalse (by rintro ⟨l', hl', c, hc', -⟩; cases hl'; rw [hc] at hc'; cases hc')
    | some c =>
      by_cases hp : p c = true
      · exact isTrue ⟨l, rfl, c, hc, hp⟩
      · exact isFalse (by rintro ⟨l', hl', c', hc', hp'⟩; cases hl'; rw [hc] at hc'
                          cases hc'; exact hp hp')

namespace VecBuffer

/-- `TextBuffer::max_linecol` for `VecBuffer` (`src/buffer.rs:305`): end of
the normal plane; `len - 1` underflows (panics) on an empty plane. -/
def max_linecol (b : VecBuffer) : Outcome LineCol :=
  match b.text.getLast? with
  | none => .panicked
  | some last => .ok ⟨b.text.length - 1, last.length⟩

/-- `VecBuffer::get_buffer_window` (`src/buffer.rs:235`): the normal-plane
lines of `[from..=to]`, the first line trimmed from `from.col`, the last
trimmed to `to.col`; a final line left empty because `to.col == 0` is
dropped. -/
def get_buffer_window (b : VecBuffer) (f t : Option LineCol) : Outcome (List Line) :=
  match f, t with
  | none, none => .ok b.text
  | _, _ =>
    let f := f.getD ⟨0, 0⟩
    let tRes := match t with
      | some t => Outcome.ok t
      | none => b.max_linecol
    match tRes with
    | .panicked => .panicked
    | .err e => .err e
    | .ok t =>
      let t : LineCol := ⟨min b.max_line t.line, t.col⟩
      if f.line > t.line ∨ (f.line = t.line ∧ f.col > t.col) then .err .InvalidInput
      else
        -- `text[from.line..=to.line]` panics when `to.line ≥ len`
        if t.line ≥ b.text.length then .panicked
        else
          let vec := (b.text.drop f.line).take (t.line - f.line + 1)
          match vec with
          | [] => .panicked -- `vec[0]` (unreachable: the slice is non-empty)
          | v0 :: vrest =>
            -- `vec[0] = vec[0][from.col..]` panics when `from.col > len`
            if f.col > v0.length then .panicked
            else
              let v0 := v0.drop f.col
              let vec := v0 :: vrest
              let lastIdx := vec.length - 1
              let tRes :=
                match vec.getLast? with
                | none => Outcome.panicked
                | some last =>
                  if f.line = t.line then
                    -- `vec[last][..to.col - from.col]` panics past the end
                    if t.col - f.col > last.length then Outcome.panicked
                    else Outcome.ok (vec.set lastIdx (last.take (t.col - f.col)))
                  else Outcome.ok (vec.set lastIdx (last.take t.col))
              match tRes with
              | .panicked => .panicked
              | .err e => .err e
              | .ok vec =>
                if t.col = 0 then .ok vec.dropLast else .ok vec

end VecBuffer

/-- `Editor::find` (`src/editor.rs:630`) for a char-predicate pattern: search
the window from `at` to the end of the buffer, then translate the window
position back to buffer coordinates. -/
def editorFind (b : VecBuffer) (p : Char → Bool) (at_ : LineCol) : Outcome LineCol :=
  match b.get_buffer_window (some at_) none with
  | .panicked => .panicked
  | .err e => .err e
  | .ok win =>
    match findPattern p win with
    | none => .err .PatternNotFound
    | some target =>
      .ok ⟨target.line + at_.line,
           if target.line = 0 then target.col + at_.col else target.col⟩

/-- The editor state relevant to bound-checked delegation: the buffer, the
real cursor position, and the signed shadow cursor. -/
structure EditorSt where
  buffer : VecBuffer
  cursor : LineCol
  shadowLine : Int
  shadowCol : Int
deriving DecidableEq, Repr

/-- Modelled from the spec: `src/cursor.rs` implements `Component` over the
intent type `Action` (which does not exist at the crate root) instead of the
primitive `BaseAction` the trait prescribes, so the cursor's handling of the
`Move*` primitives is missing from the sources; §4.2 of the spec defines it:
"`Move*` adjust `pos` by the given distance without bound checks". -/
def cursorMove (pos : LineCol) (a : BaseAction) : LineCol :=
  match a with
  | .MoveUp n => ⟨pos.line - n, pos.col⟩
  | .MoveDown n => ⟨pos.line + n, pos.col⟩
  | .MoveLeft n => ⟨pos.line, pos.col - n⟩
  | .MoveRight n => ⟨pos.line, pos.col + n⟩
  | _ => pos

/-- Modelled from the spec: the shadow cursor "uses signed coordinates and
mirrors only `Move*` and `SetCursor`" (§4.2); the `Move*` handling embedded
here, the stale impl in `src/cursor.rs` covering only the intent type. -/
def shadowMove (line col : Int) (a : BaseAction) : Int × Int :=
  match a with
  | .MoveUp n => (line - n, col)
  | .MoveDown n => (line + n, col)
  | .MoveLeft n => (line, col - n)
  | .MoveRight n => (line, col + n)
  | _ => (line, col)

/-- `Editor::delegate_action` restricted to movement primitives: the buffer's
`Component` impl sends every `Move*` to its wildcard arm and the viewport's
`Move*` arms are unreachable, so delegating a movement updates only the real
cursor and the shadow cursor. -/
def delegateMove (s : EditorSt) (a : BaseAction) : EditorSt :=
  let sh := shadowMove s.shadowLine s.shadowCol a
  { s with cursor := cursorMove s.cursor a, shadowLine := sh.1, shadowCol := sh.2 }

/-- Sequential delegation of a resolved action vector. -/
def delegateMoves (s : EditorSt) (acts : List BaseAction) : EditorSt :=
  acts.foldl delegateMove s

/-- `resolve_action(Action::JumpEOF)` (`src/editor.rs:372`). -/
def resolveJumpEOF (s : EditorSt) : List BaseAction :=
  [.MoveUp s.cursor.line, .MoveDown s.buffer.max_line]

/-- `resolve_action(Action::JumpSOF)` (`src/editor.rs:371`). -/
def resolveJumpSOF (s : EditorSt) : List BaseAction :=
  [.MoveUp s.cursor.line]

/-- `resolve_action(Action::JumpEOL)` (`src/editor.rs:367`): `max_col` indexes
the active plane with the cursor's line and panics out of range. -/
def resolveJumpEOL (s : EditorSt) : Outcome (List BaseAction) :=
  match s.buffer.getBuffer[s.cursor.line]? with
  | none => .panicked
  | some l => .ok [.MoveLeft s.cursor.col, .MoveRight l.length]

/-- `resolve_action(Action::JumpSOL)` (`src/editor.rs:366`). -/
def resolveJumpSOL (s : EditorSt) : List BaseAction :=
  [.MoveLeft s.cursor.col]

/-- The action is a vertical movement (`MoveUp`/`MoveDown`). -/
def BaseAction.isVertical : BaseAction → Bool
  | .MoveUp _ | .MoveDown _ => true
  | _ => false

/-- `Editor::delegate_action_bound_checked` (`src/editor.rs:292`): apply the
movement to the shadow cursor, rewrite line overflow/underflow through
`JumpEOF`/`JumpSOF`, apply vertical moves to the real cursor in advance,
rewrite column overflow/underflow through `JumpEOL`/`JumpSOL`, and delegate
the original action only if nothing was altered.  `max_col(shadow.line as
usize)` panics when the shadow line (negative values cast to huge `usize`
first) is outside the active plane. -/
def delegateActionBoundChecked (s : EditorSt) (a : BaseAction) : Outcome EditorSt :=
  let sh := shadowMove s.shadowLine s.shadowCol a
  let s : EditorSt := { s with shadowLine := sh.1, shadowCol := sh.2 }
  let lineJump :=
    if s.shadowLine > (s.buffer.max_line : Int) then
      let s : EditorSt := { s with shadowLine := (s.cursor.line : Int) }
      (delegateMoves s (resolveJumpEOF s), true)
    else if s.shadowLine < 0 then
      let s : EditorSt := { s with shadowLine := (s.cursor.line : Int) }
      (delegateMoves s (resolveJumpSOF s), true)
    else (s, false)
  let vert :=
    if a.isVertical ∧ ¬lineJump.2 then
      ({ lineJump.1 with cursor := cursorMove lineJump.1.cursor a }, true)
    else lineJump
  let s := vert.1
  let altered := vert.2
  if s.shadowLine < 0 then .panicked
  else
    match s.buffer.getBuffer[s.shadowLine.toNat]? with
    | none => .panicked
    | some shadowLineStr =>
      if s.shadowCol > (shadowLineStr.length : Int) then
        let s : EditorSt := { s with shadowCol := (s.cursor.col : Int) }
        match resolveJumpEOL s with
        | .panicked => .panicked
        | .err e => .err e
        | .ok acts => .ok (delegateMoves s acts)
      else if s.shadowCol < 0 then
        let s : EditorSt := { s with shadowCol := (s.cursor.col : Int) }
        .ok (delegateMoves s (resolveJumpSOL s))
      else
        if altered then .ok s else .ok (delegateMove s a)

/-! ## Theorems -/

/-- C1 (counterexample): `delete_selection((0,0),(0,1))` on the default buffer
(one empty line) takes the whole-line drain path and leaves the Normal plane
with zero lines, contradicting the claim that no `delete_selection` call can
do so. -/
theorem delete_selection_empties_normal_plane :
    VecBuffer.default.delete_selection ⟨0, 0⟩ ⟨0, 1⟩ =
      .ok { VecBuffer.default with text := [] } ∧
    ({ VecBuffer.default with text := [] } : VecBuffer).text.length = 0 := by
  decide

/-- C2 (counterexample): on `["ab", "cd"]` with `from = (0,0)`, `to = (0,2)`
and text `"X"`, `replace` yields `["X", "cd"]` while `delete_selection`
followed by `insert_text` yields `["Xcd"]`: the two are not equivalent. -/
theorem replace_differs_from_delete_then_insert :
    (VecBuffer.new [['a', 'b'], ['c', 'd']]).replace ⟨0, 0⟩ ⟨0, 2⟩ ['X'] =
      .ok (VecBuffer.new [['X'], ['c', 'd']]) ∧
    (VecBuffer.new [['a', 'b'], ['c', 'd']]).delete_selection ⟨0, 0⟩ ⟨0, 2⟩ =
      .ok (VecBuffer.new [['c', 'd']]) ∧
    (VecBuffer.new [['c', 'd']]).insert_text ⟨0, 0⟩ ['X'] false =
      .ok (VecBuffer.new [['X', 'c', 'd']], ⟨0, 0⟩) ∧
    VecBuffer.new [['X'], ['c', 'd']] ≠ VecBuffer.new [['X', 'c', 'd']] := by
  decide

/-- C3: `insert` at `at.line` equal to the line count panics while checking
`at.col` (the guard tests `at.line > len`, not `>=`, and then indexes
`buffer[at.line]`), instead of returning `InvalidPosition` as specified. -/
theorem insert_panics_when_line_equals_count :
    VecBuffer.default.insert ⟨1, 0⟩ 'x' = .panicked ∧
    VecBuffer.default.getBuffer.length = 1 ∧
    VecBuffer.default.insert ⟨1, 0⟩ 'x' ≠ .err .InvalidPosition := by
  decide

/-- C4: mutating the buffer pushes nothing onto the past stack (`past.push`
occurs only inside `redo`), the `Undo` primitive falls into the buffer
`Component` impl's wildcard arm, and calling `undo` directly fails with
`NowhereToGo`; after inserting `'z'` into `["abc"]` the buffer stays
`["zabc"]` instead of returning to `["abc"]`. -/
theorem undo_cannot_restore_premutation_content :
    (VecBuffer.new [['a', 'b', 'c']]).insert ⟨0, 0⟩ 'z' =
      .ok (VecBuffer.new [['z', 'a', 'b', 'c']]) ∧
    (VecBuffer.new [['z', 'a', 'b', 'c']]).past = [] ∧
    (VecBuffer.new [['z', 'a', 'b', 'c']]).executeAction (.Undo 1) =
      .ok (VecBuffer.new [['z', 'a', 'b', 'c']]) ∧
    (VecBuffer.new [['z', 'a', 'b', 'c']]).undo ⟨0, 0⟩ = .err .NowhereToGo := by
  decide

/-- C5: the viewport's `MoveUp`/`MoveDown` match arms sit after the wildcard
arm and are unreachable, so executing the primitives leaves both borders
unchanged; the intended arithmetic lives only in the never-reached
`scroll_up`/`scroll_down`. -/
theorem viewport_move_primitives_do_not_scroll :
    ViewPort.executeAction ⟨80, 24, 5, 10, .Normal⟩ (.MoveUp 3) =
      ⟨80, 24, 5, 10, .Normal⟩ ∧
    ViewPort.executeAction ⟨80, 24, 5, 10, .Normal⟩ (.MoveDown 4) =
      ⟨80, 24, 5, 10, .Normal⟩ ∧
    ViewPort.scroll_up ⟨80, 24, 5, 10, .Normal⟩ 3 = ⟨80, 24, 2, 7, .Normal⟩ ∧
    ViewPort.scroll_up ⟨80, 24, 5, 10, .Normal⟩ 7 = ⟨80, 24, 0, 5, .Normal⟩ ∧
    ViewPort.scroll_down ⟨80, 24, 5, 10, .Normal⟩ 4 = ⟨80, 24, 9, 14, .Normal⟩ := by
  decide

/-- C8: the cursor's `execute_action` sends `ChangeMode` to its wildcard arm,
leaving the cursor untouched; the mode-change transition the claim describes
is implemented only by the never-called `mod_change`. -/
theorem cursor_ignores_changemode_primitive :
    (Cursor.executeAction
        ⟨⟨3, 4⟩, ⟨0, 0⟩, ⟨0, 0⟩, .Text, ⟨1, 1⟩⟩ (.ChangeMode .Command) =
      ⟨⟨3, 4⟩, ⟨0, 0⟩, ⟨0, 0⟩, .Text, ⟨1, 1⟩⟩) ∧
    (Cursor.mod_change ⟨⟨3, 4⟩, ⟨0, 0⟩, ⟨0, 0⟩, .Text, ⟨1, 1⟩⟩ .Command).pos = ⟨0, 0⟩ ∧
    (Cursor.mod_change ⟨⟨3, 4⟩, ⟨0, 0⟩, ⟨0, 0⟩, .Text, ⟨1, 1⟩⟩ .Command).plane =
      .CommandBar ∧
    (Cursor.mod_change
        ⟨⟨3, 4⟩, ⟨0, 0⟩, ⟨0, 0⟩, .Text, ⟨1, 1⟩⟩ .Command).last_text_mode_pos =
      ⟨3, 4⟩ := by
  decide

/-- C9: in Normal mode `t` followed by `x` decodes to `FindChar('x')` — the
same intent as `f` — not to the `ToChar` intent whose resolution would append
a `MoveLeft(1)`; likewise `T` decodes to `ReverseFindChar`. -/
theorem t_decodes_to_findchar_not_tochar :
    interpretNormalPrevKey 't' 'x' = .FindChar 'x' ∧
    interpretNormalPrevKey 'T' 'x' = .ReverseFindChar 'x' ∧
    interpretNormalPrevKey 't' 'x' ≠ .ToChar 'x' ∧
    interpretNormalPrevKey 'T' 'x' ≠ .ReverseToChar 'x' ∧
    interpretNormalPrevKey 't' 'x' = interpretNormalPrevKey 'f' 'x' := by
  decide

/-- C6 (counterexample): on the single line `"a"` with the predicate
`(= 'a')`, reverse search reports `(0, 1)`, one column past the only
satisfying position `(0, 0)` — not the greatest satisfying position. -/
theorem rfind_reports_one_past_the_match :
    rfindPattern (fun c => c == 'a') [['a']] = some ⟨0, 1⟩ ∧
    satAt (fun c => c == 'a') [['a']] ⟨0, 0⟩ ∧
    ¬ satAt (fun c => c == 'a') [['a']] ⟨0, 1⟩ := by
  decide

lemma position_none_iff (p : Char → Bool) (l : List Char) :
    position p l = none ↔ ∀ (j : Nat) (c : Char), l[j]? = some c → p c = false := by
  induction l with
  | nil => simp [position]
  | cons c cs ih =>
    simp only [position]
    by_cases hp : p c
    · rw [if_pos hp]
      constructor
      · intro h; cases h
      · intro h
        have h0 := h 0 c (by simp)
        rw [hp] at h0
        cases h0
    · rw [if_neg hp]
      rw [Option.map_eq_none']
      rw [ih]
      constructor
      · intro h j c' hj
        cases j with
        | zero =>
          simp only [List.getElem?_cons_zero, Option.some.injEq] at hj
          subst hj
          exact Bool.eq_false_iff.mpr hp
        | succ j => exact h j c' (by simpa using hj)
      · intro h j c' hj
        exact h (j + 1) c' (by simpa using hj)

lemma position_some_spec (p : Char → Bool) (l : List Char) (i : Nat)
    (h : position p l = some i) :
    i < l.length ∧ (∃ c, l[i]? = some c ∧ p c = true) ∧
      ∀ (j : Nat) (c : Char), j < i → l[j]? = some c → p c = false := by
  induction l generalizing i with
  | nil => cases h
  | cons c cs ih =>
    simp only [position] at h
    by_cases hp : p c
    · rw [if_pos hp] at h
      cases h
      exact ⟨by simp, ⟨c, by simp, hp⟩,
             fun j c' hj _ => absurd hj (Nat.not_lt_zero j)⟩
    · rw [if_neg hp] at h
      cases hcs : position p cs with
      | none => rw [hcs] at h; cases h
      | some i' =>
        rw [hcs, Option.map_some', Option.some.injEq] at h
        subst h
        obtain ⟨hlt, ⟨c', hc', hpc'⟩, hmin⟩ := ih i' hcs
        refine ⟨by simp only [List.length_cons]; omega,
                ⟨c', by simpa using hc', hpc'⟩, ?_⟩
        intro j c'' hj hget
        cases j with
        | zero =>
          simp only [List.getElem?_cons_zero, Option.some.injEq] at hget
          subst hget
          exact Bool.eq_false_iff.mpr hp
        | succ j => exact hmin j c'' (by omega) (by simpa using hget)

lemma position_reverse_none (p : Char → Bool) (l : List Char)
    (h : position p l.reverse = none) :
    ∀ (j : Nat) (c : Char), l[j]? = some c → p c = false := by
  intro j c hget
  have hj : j < l.length := by
    by_contra hge
    rw [List.getElem?_eq_none (by omega)] at hget
    cases hget
  have hrev : l.reverse[l.length - 1 - j]? = l[j]? := by
    have hlt : l.length - 1 - j < l.length := by omega
    rw [List.getElem?_reverse (by simpa using hlt)]
    congr 1
    omega
  exact (position_none_iff p l.reverse).mp h (l.length - 1 - j) c (hrev.trans hget)

lemma position_reverse_some (p : Char → Bool) (l : List Char) (rcol : Nat)
    (h : position p l.reverse = some rcol) :
    rcol < l.length ∧
    (∃ c, l[l.length - 1 - rcol]? = some c ∧ p c = true) ∧
    ∀ (j : Nat) (c : Char), l.length - 1 - rcol < j → l[j]? = some c →
      p c = false := by
  obtain ⟨hlt, ⟨c, hc, hpc⟩, hmin⟩ := position_some_spec p l.reverse rcol h
  rw [List.length_reverse] at hlt
  have hconv : l.reverse[rcol]? = l[l.length - 1 - rcol]? := by
    rw [List.getElem?_reverse (by simpa using hlt)]
  refine ⟨hlt, ⟨c, hconv.symm.trans hc, hpc⟩, ?_⟩
  intro j c' hj hget
  have hjlt : j < l.length := by
    by_contra hge
    rw [List.getElem?_eq_none (by omega)] at hget
    cases hget
  have hconv' : l.reverse[l.length - 1 - j]? = l[j]? := by
    have hlt' : l.length - 1 - j < l.length := by omega
    rw [List.getElem?_reverse (by simpa using hlt')]
    congr 1
    omega
  exact hmin (l.length - 1 - j) c' (by omega) (hconv'.trans hget)

lemma satAt_cons_zero (p : Char → Bool) (l : Line) (ls : List Line) (col : Nat) :
    satAt p (l :: ls) ⟨0, col⟩ ↔ ∃ c, l[col]? = some c ∧ p c = true := by
  simp [satAt]

lemma satAt_cons_succ (p : Char → Bool) (l : Line) (ls : List Line)
    (n col : Nat) : satAt p (l :: ls) ⟨n + 1, col⟩ ↔ satAt p ls ⟨n, col⟩ := by
  simp [satAt]

lemma findPattern_some_least (p : Char → Bool) (lines : List Line) (lc : LineCol)
    (h : findPattern p lines = some lc) :
    satAt p lines lc ∧ ∀ lc', satAt p lines lc' → lc.lexLe lc' := by
  induction lines generalizing lc with
  | nil => cases h
  | cons l ls ih =>
    simp only [findPattern] at h
    cases hpos : position p l with
    | some c0 =>
      rw [hpos] at h
      cases h
      obtain ⟨-, ⟨c, hc, hpc⟩, hmin⟩ := position_some_spec p l c0 hpos
      refine ⟨(satAt_cons_zero p l ls c0).mpr ⟨c, hc, hpc⟩, ?_⟩
      rintro ⟨line', col'⟩ hsat
      cases line' with
      | zero =>
        obtain ⟨c', hc', hpc'⟩ := (satAt_cons_zero p l ls col').mp hsat
        have hcle : c0 ≤ col' := by
          by_contra hlt
          have := hmin col' c' (by omega) hc'
          rw [hpc'] at this
          cases this
        unfold LineCol.lexLe
        dsimp only
        omega
      | succ n =>
        unfold LineCol.lexLe
        dsimp only
        omega
    | none =>
      rw [hpos] at h
      cases hrec : findPattern p ls with
      | none => rw [hrec] at h; cases h
      | some lc0 =>
        rw [hrec, Option.map_some', Option.some.injEq] at h
        subst h
        obtain ⟨hsat0, hleast0⟩ := ih lc0 hrec
        refine ⟨(satAt_cons_succ p l ls lc0.line lc0.col).mpr hsat0, ?_⟩
        rintro ⟨line', col'⟩ hsat
        cases line' with
        | zero =>
          obtain ⟨c', hc', hpc'⟩ := (satAt_cons_zero p l ls col').mp hsat
          have := (position_none_iff p l).mp hpos col' c' hc'
          rw [hpc'] at this
          cases this
        | succ n =>
          have hle := hleast0 ⟨n, col'⟩ ((satAt_cons_succ p l ls n col').mp hsat)
          unfold LineCol.lexLe at hle ⊢
          dsimp only at hle ⊢
          omega

lemma findPattern_none_nosat (p : Char → Bool) (lines : List Line)
    (h : findPattern p lines = none) : ∀ lc, ¬ satAt p lines lc := by
  induction lines with
  | nil => rintro lc ⟨l, hl, -⟩; cases hl
  | cons l ls ih =>
    simp only [findPattern] at h
    cases hpos : position p l with
    | some c0 => rw [hpos] at h; cases h
    | none =>
      rw [hpos, Option.map_eq_none'] at h
      rintro ⟨line', col'⟩ hsat
      cases line' with
      | zero =>
        obtain ⟨c', hc', hpc'⟩ := (satAt_cons_zero p l ls col').mp hsat
        have := (position_none_iff p l).mp hpos col' c' hc'
        rw [hpc'] at this
        cases this
      | succ n => exact ih h ⟨n, col'⟩ ((satAt_cons_succ p l ls n col').mp hsat)

lemma rfindPattern_none_nosat (p : Char → Bool) (lines : List Line)
    (h : rfindPattern p lines = none) : ∀ lc, ¬ satAt p lines lc := by
  induction lines with
  | nil => rintro lc ⟨l, hl, -⟩; cases hl
  | cons l ls ih =>
    simp only [rfindPattern] at h
    cases hrec : rfindPattern p ls with
    | some lc0 => rw [hrec] at h; cases h
    | none =>
      rw [hrec, Option.map_eq_none'] at h
      rintro ⟨line', col'⟩ hsat
      cases line' with
      | zero =>
        obtain ⟨c', hc', hpc'⟩ := (satAt_cons_zero p l ls col').mp hsat
        have := position_reverse_none p l h col' c' hc'
        rw [hpc'] at this
        cases this
      | succ n => exact ih hrec ⟨n, col'⟩ ((satAt_cons_succ p l ls n col').mp hsat)

lemma rfindPattern_some_greatest (p : Char → Bool) (lines : List Line)
    (lc : LineCol) (h : rfindPattern p lines = some lc) :
    1 ≤ lc.col ∧ satAt p lines ⟨lc.line, lc.col - 1⟩ ∧
      ∀ lc', satAt p lines lc' → lc'.lexLe ⟨lc.line, lc.col - 1⟩ := by
  induction lines generalizing lc with
  | nil => cases h
  | cons l ls ih =>
    simp only [rfindPattern] at h
    cases hrec : rfindPattern p ls with
    | some lc0 =>
      rw [hrec] at h
      cases h
      obtain ⟨hcol, hsat0, hgt0⟩ := ih lc0 hrec
      refine ⟨hcol, (satAt_cons_succ p l ls lc0.line (lc0.col - 1)).mpr hsat0, ?_⟩
      rintro ⟨line', col'⟩ hsat
      cases line' with
      | zero =>
        unfold LineCol.lexLe
        dsimp only
        omega
      | succ n =>
        have hle := hgt0 ⟨n, col'⟩ ((satAt_cons_succ p l ls n col').mp hsat)
        unfold LineCol.lexLe at hle ⊢
        dsimp only at hle ⊢
        omega
    | none =>
      rw [hrec] at h
      cases hpos : position p l.reverse with
      | none => rw [hpos] at h; cases h
      | some rcol =>
        rw [hpos, Option.map_some', Option.some.injEq] at h
        subst h
        obtain ⟨hlt, ⟨c, hc, hpc⟩, hmax⟩ := position_reverse_some p l rcol hpos
        have hidx : l.length - rcol - 1 = l.length - 1 - rcol := by omega
        refine ⟨by dsimp only; omega,
                (satAt_cons_zero p l ls (l.length - rcol - 1)).mpr
                  ⟨c, by rw [hidx]; exact hc, hpc⟩, ?_⟩
        rintro ⟨line', col'⟩ hsat
        cases line' with
        | zero =>
          obtain ⟨c', hc', hpc'⟩ := (satAt_cons_zero p l ls col').mp hsat
          have hcle : col' ≤ l.length - 1 - rcol := by
            by_contra hgt
            have := hmax col' c' (by omega) hc'
            rw [hpc'] at this
            cases this
          unfold LineCol.lexLe
          dsimp only
          omega
        | succ n =>
          exact absurd ((satAt_cons_succ p l ls n col').mp hsat)
            (rfindPattern_none_nosat p ls hrec ⟨n, col'⟩)

/-- C6 (amended): for every character predicate and every line array, forward
search returns the lexicographically least satisfying position (`none` when
there is none); reverse search returns the position one column past the
lexicographically greatest satisfying position (`none` when there is none). -/
theorem forward_least_reverse_one_past_greatest :
    (∀ (p : Char → Bool) (lines : List Line) (lc : LineCol),
        findPattern p lines = some lc →
          satAt p lines lc ∧ ∀ lc', satAt p lines lc' → lc.lexLe lc') ∧
    (∀ (p : Char → Bool) (lines : List Line),
        findPattern p lines = none → ∀ lc, ¬ satAt p lines lc) ∧
    (∀ (p : Char → Bool) (lines : List Line) (lc : LineCol),
        rfindPattern p lines = some lc →
          1 ≤ lc.col ∧ satAt p lines ⟨lc.line, lc.col - 1⟩ ∧
            ∀ lc', satAt p lines lc' → lc'.lexLe ⟨lc.line, lc.col - 1⟩) ∧
    (∀ (p : Char → Bool) (lines : List Line),
        rfindPattern p lines = none → ∀ lc, ¬ satAt p lines lc) :=
  ⟨findPattern_some_least, findPattern_none_nosat,
   rfindPattern_some_greatest, rfindPattern_none_nosat⟩

/-- C6 (witness): the characterization applied to a concrete search. -/
theorem forward_least_reverse_one_past_greatest_witness :
    satAt (fun c => c == 'b') [['a', 'b']] ⟨0, 1⟩ ∧
    satAt (fun c => c == 'b') [['a', 'b']] ⟨0, 1⟩ := by
  constructor
  · exact (forward_least_reverse_one_past_greatest.1
      (fun c => c == 'b') [['a', 'b']] ⟨0, 1⟩ (by decide)).1
  · exact (forward_least_reverse_one_past_greatest.2.2.1
      (fun c => c == 'b') [['a', 'b']] ⟨0, 2⟩ (by decide)).2.1

/-- C10: when the editor's forward search succeeds, the reported position is
at or after the starting position in lexicographic order — the window starts
at `at` and the result is translated by `at.line` (and by `at.col` on the
first window line). -/
theorem find_never_reports_before_start (b : VecBuffer) (p : Char → Bool)
    (at_ r : LineCol) (h : editorFind b p at_ = .ok r) : at_.lexLe r := by
  unfold editorFind at h
  cases hw : b.get_buffer_window (some at_) none with
  | panicked => rw [hw] at h; cases h
  | err e => rw [hw] at h; cases h
  | ok win =>
    rw [hw] at h
    dsimp only at h
    cases hf : findPattern p win with
    | none => rw [hf] at h; cases h
    | some target =>
      rw [hf] at h
      cases h
      unfold LineCol.lexLe
      dsimp only
      by_cases ht : target.line = 0
      · rw [if_pos ht]; omega
      · rw [if_neg ht]; omega

/-- C10 (witness): a concrete successful search, at or after its start. -/
theorem find_never_reports_before_start_witness :
    editorFind (VecBuffer.new [['a', 'b']]) (fun c => c == 'b') ⟨0, 0⟩ =
      .ok ⟨0, 1⟩ ∧ LineCol.lexLe ⟨0, 0⟩ ⟨0, 1⟩ := by
  refine ⟨by decide, ?_⟩
  exact find_never_reports_before_start (VecBuffer.new [['a', 'b']])
    (fun c => c == 'b') ⟨0, 0⟩ ⟨0, 1⟩ (by decide)


/-- Sequencing of outcomes (`?` in Rust): errors and panics short-circuit. -/
def Outcome.bind {α β : Type} (o : Outcome α) (g : α → Outcome β) : Outcome β :=
  match o with
  | .ok a => g a
  | .err e => .err e
  | .panicked => .panicked

/-- Mapping over a successful outcome. -/
def Outcome.map {α β : Type} (g : α → β) (o : Outcome α) : Outcome β :=
  match o with
  | .ok a => .ok (g a)
  | .err e => .err e
  | .panicked => .panicked

lemma append_cons_getElem {α : Type} (A : List α) (x : α) (R : List α) :
    (A ++ x :: R)[A.length]? = some x := by
  induction A with
  | nil => simp
  | cons a as ih => simpa using ih

lemma append_cons_set {α : Type} (A : List α) (x y : α) (R : List α) :
    (A ++ x :: R).set A.length y = A ++ y :: R := by
  induction A with
  | nil => rfl
  | cons a as ih => simp [List.set, ih]

lemma append_cons_take {α : Type} (A : List α) (x : α) (R : List α) :
    (A ++ x :: R).take A.length = A := by
  induction A with
  | nil => rfl
  | cons a as ih => simp [List.take, ih]

lemma append_cons_take_succ {α : Type} (A : List α) (x : α) (R : List α) :
    (A ++ x :: R).take (A.length + 1) = A ++ [x] := by
  induction A with
  | nil => rfl
  | cons a as ih => simpa [List.take] using ih

lemma append_cons_drop_succ {α : Type} (A : List α) (x : α) (R : List α) :
    (A ++ x :: R).drop (A.length + 1) = R := by
  induction A with
  | nil => rfl
  | cons a as ih => simp only [List.cons_append, List.length_cons, List.drop]; exact ih

lemma append_cons_length {α : Type} (A : List α) (x : α) (R : List α) :
    (A ++ x :: R).length = A.length + 1 + R.length := by
  simp; omega

lemma buf_decomp {α : Type} (buf : List α) (i : Nat) (h : i < buf.length) :
    ∃ A x B, buf = A ++ x :: B ∧ A.length = i := by
  induction buf generalizing i with
  | nil => simp at h
  | cons y ys ih =>
    cases i with
    | zero => exact ⟨[], y, ys, rfl, rfl⟩
    | succ i =>
      obtain ⟨A, x, B, hb, hl⟩ := ih i (by simpa using Nat.lt_of_succ_lt_succ h)
      exact ⟨y :: A, x, B, by rw [hb]; rfl, by simp [hl]⟩

lemma dropLast_ne_nil_of_two_le {α : Type} (l : List α) (h : 2 ≤ l.length) :
    l.dropLast ≠ [] := by
  intro hl
  have hlen := congrArg List.length hl
  rw [List.length_dropLast] at hlen
  simp only [List.length_nil] at hlen
  omega

lemma splitOn_newline_ne_nil (cs : List Char) : cs.splitOn '\n' ≠ [] := by
  intro h
  exact List.splitOnP_ne_nil _ cs (by simpa [List.splitOn] using h)

lemma rustLines_ne_nil (text : List Char) (h : text ≠ []) : rustLines text ≠ [] := by
  unfold rustLines
  rw [if_neg h]
  intro hmap
  rw [List.map_eq_nil_iff] at hmap
  cases text with
  | nil => exact h rfl
  | cons c cs =>
    have hcons : (c :: cs).splitOn '\n' =
        if c == '\n' then [] :: cs.splitOn '\n'
        else (cs.splitOn '\n').modifyHead (c :: ·) := by
      simp [List.splitOn, List.splitOnP_cons]
    by_cases hc : c == '\n'
    · rw [if_pos hc] at hcons
      rw [hcons] at hmap
      have hpos : 1 ≤ (cs.splitOn '\n').length :=
        List.length_pos.mpr (splitOn_newline_ne_nil cs)
      have hlen : 2 ≤ (([] : Line) :: cs.splitOn '\n').length := by
        simp only [List.length_cons]
        omega
      split at hmap
      · exact dropLast_ne_nil_of_two_le _ hlen hmap
      · cases hmap
    · rw [if_neg hc] at hcons
      rw [hcons] at hmap
      cases hsp : cs.splitOn '\n' with
      | nil => exact splitOn_newline_ne_nil cs hsp
      | cons s ss =>
        rw [hsp] at hmap
        simp only [List.modifyHead] at hmap
        cases ss with
        | nil =>
          rw [show ((c :: s) :: ([] : List Line)).getLast? = some (c :: s) from rfl]
            at hmap
          split at hmap
          · rename_i heq
            simp at heq
          · cases hmap
        | cons s2 ss2 =>
          split at hmap
          · exact dropLast_ne_nil_of_two_le _ (by simp only [List.length_cons]; omega) hmap
          · cases hmap

lemma getBuffer_setBuffer (b : VecBuffer) (ls : List Line) :
    (b.setBuffer ls).getBuffer = ls := by
  cases hp : b.plane <;> simp [VecBuffer.getBuffer, VecBuffer.setBuffer, hp]

lemma setBuffer_setBuffer (b : VecBuffer) (ls ls' : List Line) :
    (b.setBuffer ls).setBuffer ls' = b.setBuffer ls' := by
  cases hp : b.plane <;> simp [VecBuffer.setBuffer, hp]

lemma delete_selection_multi_eval (b : VecBuffer) (A M B : List Line)
    (FL TL : Line) (f t : LineCol)
    (hbuf : b.getBuffer = A ++ FL :: (M ++ TL :: B))
    (hf : f.line = A.length) (ht : t.line = A.length + 1 + M.length)
    (htc : t.col ≤ TL.length) (hnw : ¬(f.col = 0 ∧ t.col ≥ TL.length)) :
    b.delete_selection f t =
      .ok (b.setBuffer (A ++ (FL.take f.col ++ TL.drop t.col) :: B)) := by
  have hlen : b.getBuffer.length = A.length + 1 + M.length + 1 + B.length := by
    rw [hbuf]; simp; omega
  have hTLq : b.getBuffer[t.line]? = some TL := by
    rw [hbuf, ht]
    rw [show A ++ FL :: (M ++ TL :: B) = (A ++ FL :: M) ++ TL :: B by simp]
    rw [show A.length + 1 + M.length = (A ++ FL :: M).length by simp; omega]
    exact append_cons_getElem _ _ _
  have hFLq : b.getBuffer[f.line]? = some FL := by
    rw [hbuf, hf]
    exact append_cons_getElem _ _ _
  have hft : f ≠ t := by
    intro h
    rw [h] at hf
    omega
  have hguard : ¬(f.line ≥ b.getBuffer.length ∨ t.line ≥ b.getBuffer.length ∨
      (f.line = t.line ∧ f.col > t.col) ∨ f.line > t.line ∨ f = t) := by
    simp only [not_or]
    exact ⟨by omega, by omega, by intro hx; omega, by omega, hft⟩
  unfold VecBuffer.delete_selection
  rw [if_neg hguard, hTLq]
  dsimp only
  rw [if_neg hnw, if_neg (show ¬ f.line = t.line by omega),
      if_neg (show ¬ t.col > TL.length by omega), hFLq]
  dsimp only
  congr 1
  rw [hbuf, hf, ht]
  rw [append_cons_set]
  rw [append_cons_take_succ]
  rw [show A ++ (FL.take f.col ++ TL.drop t.col) :: (M ++ TL :: B) =
        (A ++ (FL.take f.col ++ TL.drop t.col) :: M) ++ TL :: B by simp]
  rw [show A.length + 1 + M.length + 1 =
        (A ++ (FL.take f.col ++ TL.drop t.col) :: M).length + 1 by simp; omega]
  rw [append_cons_drop_succ]
  simp

lemma delete_selection_single_eval (b : VecBuffer) (A B : List Line)
    (TL : Line) (f t : LineCol)
    (hbuf : b.getBuffer = A ++ TL :: B)
    (hf : f.line = A.length) (ht : t.line = A.length)
    (hcl : f.col < t.col) (htc : t.col ≤ TL.length)
    (hnw : ¬(f.col = 0 ∧ t.col ≥ TL.length)) :
    b.delete_selection f t =
      .ok (b.setBuffer (A ++ (TL.take f.col ++ TL.drop t.col) :: B)) := by
  have hlen : b.getBuffer.length = A.length + 1 + B.length := by
    rw [hbuf]; simp; omega
  have hTLq : b.getBuffer[t.line]? = some TL := by
    rw [hbuf, ht]
    exact append_cons_getElem _ _ _
  have hft : f ≠ t := by
    intro h
    rw [h] at hcl
    omega
  have hguard : ¬(f.line ≥ b.getBuffer.length ∨ t.line ≥ b.getBuffer.length ∨
      (f.line = t.line ∧ f.col > t.col) ∨ f.line > t.line ∨ f = t) := by
    simp only [not_or]
    exact ⟨by omega, by omega, by intro hx; omega, by omega, hft⟩
  unfold VecBuffer.delete_selection
  rw [if_neg hguard, hTLq]
  dsimp only
  rw [if_neg hnw, if_pos (show f.line = t.line by omega), if_neg hnw]
  by_cases hend : t.col ≥ TL.length
  · rw [if_pos hend]
    congr 1
    rw [hbuf, hf]
    rw [append_cons_set]
    rw [List.drop_eq_nil_of_le (by omega), List.append_nil]
  · rw [if_neg hend]
    congr 1
    rw [hbuf, hf]
    rw [append_cons_set]

lemma append_cons_getElem_eq {α : Type} (A : List α) (x : α) (R : List α)
    (h : A.length < (A ++ x :: R).length) : (A ++ x :: R)[A.length] = x := by
  have h1 := append_cons_getElem A x R
  rw [List.getElem?_eq_getElem h] at h1
  exact Option.some.inj h1

lemma getElem?_eq_get {α : Type} (l : List α) (i : Nat) (h : i < l.length) :
    l[i]? = some (l.get ⟨i, h⟩) := by
  rw [List.getElem?_eq_getElem h]
  rfl

lemma insert_text_eval (b : VecBuffer) (A B : List Line) (H T l0 : Line)
    (rest : List Line) (f : LineCol) (text : List Char)
    (hls : rustLines text = l0 :: rest) (htext : text ≠ [])
    (hbuf : b.getBuffer = A ++ (H ++ T) :: B)
    (hf : f.line = A.length) (hcol : f.col = H.length) :
    b.insert_text f text false =
      .ok (b.setBuffer (A ++ appendToLast T ((H ++ l0) :: rest) ++ B), f) := by
  have hlen : b.getBuffer.length = A.length + 1 + B.length := by
    rw [hbuf]; simp; omega
  have hflt : ¬(f.line ≥ b.getBuffer.length) := by omega
  have hq2 : b.getBuffer[f.line]? = some (H ++ T) := by
    rw [hbuf, hf]
    exact append_cons_getElem _ _ _
  have hget : b.getBuffer.get ⟨f.line, by omega⟩ = H ++ T := by
    have hq := getElem?_eq_get b.getBuffer f.line (by omega)
    rw [hq2] at hq
    exact (Option.some.inj hq).symm
  unfold VecBuffer.insert_text
  rw [dif_neg hflt]
  rw [hget]
  rw [if_neg (show ¬(f.col > (H ++ T).length) by
        rw [List.length_append]; omega)]
  rw [if_neg htext]
  rw [if_neg Bool.false_ne_true]
  dsimp only
  rw [hls]
  dsimp only
  cases rest with
  | nil =>
    rw [if_pos rfl]
    rw [List.take_left' hcol.symm, List.drop_left' hcol.symm]
    congr 3
    rw [hbuf, hf]
    rw [append_cons_set]
    show A ++ ((H ++ l0) ++ T) :: B = A ++ appendToLast T [H ++ l0] ++ B
    show A ++ ((H ++ l0) ++ T) :: B = A ++ [(H ++ l0) ++ T] ++ B
    simp
  | cons r rs =>
    rw [if_neg (by simp)]
    rw [List.take_left' hcol.symm, List.drop_left' hcol.symm]
    congr 3
    rw [hbuf, hf]
    rw [append_cons_set]
    rw [append_cons_take_succ]
    rw [append_cons_drop_succ]
    show (A ++ [H ++ l0]) ++ appendToLast T (r :: rs) ++ B =
      A ++ ((H ++ l0) :: appendToLast T (r :: rs)) ++ B
    simp

lemma replace_multi_eval (b : VecBuffer) (A M B : List Line) (FL TL : Line)
    (f t : LineCol) (text : List Char) (l0 : Line) (rest : List Line)
    (hls : rustLines text = l0 :: rest) (htext : text ≠ [])
    (hbuf : b.getBuffer = A ++ FL :: (M ++ TL :: B))
    (hf : f.line = A.length) (ht : t.line = A.length + 1 + M.length)
    (hfc : f.col ≤ FL.length) (htc : t.col ≤ TL.length) :
    b.replace f t text =
      .ok (b.setBuffer
        (A ++ appendToLast (TL.drop t.col) ((FL.take f.col ++ l0) :: rest) ++ B)) := by
  have hFLq : b.getBuffer[f.line]? = some FL := by
    rw [hbuf, hf]
    exact append_cons_getElem _ _ _
  have hTLq : b.getBuffer[t.line]? = some TL := by
    rw [hbuf, ht]
    rw [show A ++ FL :: (M ++ TL :: B) = (A ++ FL :: M) ++ TL :: B by simp]
    rw [show A.length + 1 + M.length = (A ++ FL :: M).length by simp; omega]
    exact append_cons_getElem _ _ _
  unfold VecBuffer.replace
  rw [if_neg htext]
  dsimp only
  rw [hFLq]
  dsimp only
  rw [if_neg (show ¬(f.col > FL.length) by omega)]
  rw [hls]
  dsimp only
  rw [hTLq]
  dsimp only
  rw [if_neg (show ¬(t.col > TL.length) by omega)]
  rw [if_neg (show ¬(f.line > t.line + 1) by omega)]
  congr 2
  rw [hbuf, hf, ht]
  rw [append_cons_take]
  rw [show A ++ FL :: (M ++ TL :: B) = (A ++ FL :: M) ++ TL :: B by simp]
  rw [show A.length + 1 + M.length + 1 = (A ++ FL :: M).length + 1 by simp; omega]
  rw [append_cons_drop_succ]

lemma replace_single_eval (b : VecBuffer) (A B : List Line) (TL : Line)
    (f t : LineCol) (text : List Char) (l0 : Line) (rest : List Line)
    (hls : rustLines text = l0 :: rest) (htext : text ≠ [])
    (hbuf : b.getBuffer = A ++ TL :: B)
    (hf : f.line = A.length) (ht : t.line = A.length)
    (hfc : f.col ≤ TL.length) (htc : t.col ≤ TL.length) :
    b.replace f t text =
      .ok (b.setBuffer
        (A ++ appendToLast (TL.drop t.col) ((TL.take f.col ++ l0) :: rest) ++ B)) := by
  have hTLq : b.getBuffer[t.line]? = some TL := by
    rw [hbuf, ht]
    exact append_cons_getElem _ _ _
  have hFLq : b.getBuffer[f.line]? = some TL := by
    rw [hbuf, hf]
    exact append_cons_getElem _ _ _
  unfold VecBuffer.replace
  rw [if_neg htext]
  dsimp only
  rw [hFLq]
  dsimp only
  rw [if_neg (show ¬(f.col > TL.length) by omega)]
  rw [hls]
  dsimp only
  rw [hTLq]
  dsimp only
  rw [if_neg (show ¬(t.col > TL.length) by omega)]
  rw [if_neg (show ¬(f.line > t.line + 1) by omega)]
  congr 2
  rw [hbuf, hf, ht]
  rw [append_cons_take]
  rw [append_cons_drop_succ]

lemma getElem?_some_lt {α : Type} (l : List α) (i : Nat) (x : α)
    (h : l[i]? = some x) : i < l.length := by
  by_contra hge
  rw [List.getElem?_eq_none (by omega)] at h
  cases h

/-- C2 (amended): `replace(from, to, text)` agrees with `delete_selection`
followed by `insert_text` for non-empty `text` and in-bounds `from < to`,
provided the deletion does not take the whole-line drain path, i.e. not
(`from.col = 0` and `to.col ≥ len(lines[to.line])`); in the drain case the two
differ (see the counterexample). -/
theorem replace_equals_delete_then_insert (b : VecBuffer) (f t : LineCol)
    (text : List Char) (FL TL : Line)
    (htext : text ≠ []) (hlt : f.lexLt t)
    (hFL : b.getBuffer[f.line]? = some FL) (hTL : b.getBuffer[t.line]? = some TL)
    (hfc : f.col ≤ FL.length) (htc : t.col ≤ TL.length)
    (hnw : ¬(f.col = 0 ∧ t.col ≥ TL.length)) :
    b.replace f t text =
      (b.delete_selection f t).bind (fun b' =>
        (b'.insert_text f text false).map Prod.fst) := by
  cases hls : rustLines text with
  | nil => exact absurd hls (rustLines_ne_nil text htext)
  | cons l0 rest =>
  have hflt : f.line < b.getBuffer.length := getElem?_some_lt _ _ _ hFL
  have htlt : t.line < b.getBuffer.length := getElem?_some_lt _ _ _ hTL
  rcases hlt with hline | ⟨hline, hcol⟩
  · -- multi-line: f.line < t.line
    obtain ⟨A, x, R, hb1, hA⟩ := buf_decomp b.getBuffer f.line hflt
    have hxFL : x = FL := by
      rw [hb1, ← hA] at hFL
      rw [append_cons_getElem] at hFL
      exact Option.some.inj hFL
    have hRlen : b.getBuffer.length = A.length + 1 + R.length := by
      rw [hb1]; exact append_cons_length _ _ _
    obtain ⟨M, y, B, hR, hM⟩ :=
      buf_decomp R (t.line - f.line - 1) (by omega)
    have hbuf0 : b.getBuffer = A ++ x :: (M ++ y :: B) := by rw [hb1, hR]
    have ht : t.line = A.length + 1 + M.length := by omega
    have hyTL : y = TL := by
      rw [hbuf0, ht] at hTL
      rw [show A ++ x :: (M ++ y :: B) = (A ++ x :: M) ++ y :: B by simp] at hTL
      rw [show A.length + 1 + M.length = (A ++ x :: M).length by simp; omega] at hTL
      rw [append_cons_getElem] at hTL
      exact Option.some.inj hTL
    have hbuf : b.getBuffer = A ++ FL :: (M ++ TL :: B) := by
      rw [hbuf0, hxFL, hyTL]
    rw [delete_selection_multi_eval b A M B FL TL f t hbuf hA.symm ht htc hnw]
    rw [replace_multi_eval b A M B FL TL f t text l0 rest hls htext hbuf
        hA.symm ht hfc htc]
    simp only [Outcome.bind]
    have hcol' : f.col = (FL.take f.col).length := by
      rw [List.length_take]; omega
    rw [insert_text_eval (b.setBuffer (A ++ (FL.take f.col ++ TL.drop t.col) :: B))
        A B (FL.take f.col) (TL.drop t.col) l0 rest f text hls htext
        (getBuffer_setBuffer _ _) hA.symm hcol']
    simp only [Outcome.map]
    rw [setBuffer_setBuffer]
  · -- single-line: f.line = t.line, f.col < t.col
    obtain ⟨A, x, B, hb1, hA⟩ := buf_decomp b.getBuffer t.line htlt
    have hxTL : x = TL := by
      rw [hb1, ← hA] at hTL
      rw [append_cons_getElem] at hTL
      exact Option.some.inj hTL
    have hbuf : b.getBuffer = A ++ TL :: B := by rw [hb1, hxTL]
    have hf : f.line = A.length := by omega
    have hfcTL : f.col ≤ TL.length := by
      rw [hline] at hFL
      rw [hFL] at hTL
      rw [Option.some.inj hTL] at hfc
      exact hfc
    rw [delete_selection_single_eval b A B TL f t hbuf hf hA.symm hcol htc hnw]
    rw [replace_single_eval b A B TL f t text l0 rest hls htext hbuf hf hA.symm
        hfcTL htc]
    simp only [Outcome.bind]
    have hcol' : f.col = (TL.take f.col).length := by
      rw [List.length_take]; omega
    rw [insert_text_eval (b.setBuffer (A ++ (TL.take f.col ++ TL.drop t.col) :: B))
        A B (TL.take f.col) (TL.drop t.col) l0 rest f text hls htext
        (getBuffer_setBuffer _ _) hf hcol']
    simp only [Outcome.map]
    rw [setBuffer_setBuffer]

/-- C2 (witness): the equivalence applied at a concrete buffer, range and text. -/
theorem replace_equals_delete_then_insert_witness :
    (VecBuffer.new [['a', 'b', 'c']]).replace ⟨0, 1⟩ ⟨0, 2⟩ ['X'] =
      ((VecBuffer.new [['a', 'b', 'c']]).delete_selection ⟨0, 1⟩ ⟨0, 2⟩).bind
        (fun b' => (b'.insert_text ⟨0, 1⟩ ['X'] false).map Prod.fst) :=
  replace_equals_delete_then_insert (VecBuffer.new [['a', 'b', 'c']])
    ⟨0, 1⟩ ⟨0, 2⟩ ['X'] ['a', 'b', 'c'] ['a', 'b', 'c']
    (by decide) (by decide) (by decide) (by decide) (by decide) (by decide)
    (by decide)

/-- The buffer operations of the claim, minus `delete_selection` and
`delete_line` (which can empty a plane — see the counterexample). -/
inductive BufOp where
  | insert (at_ : LineCol) (ch : Char)
  | insert_text (at_ : LineCol) (text : List Char) (nl : Bool)
  | insert_newline (at_ : LineCol)
  | delete (at_ : LineCol)
  | replace (f t : LineCol) (text : List Char)
  | undo (at_ : LineCol)
  | redo (at_ : LineCol)
  | clear_command
deriving DecidableEq, Repr

/-- Dispatch one buffer operation. -/
def applyOp (op : BufOp) (b : VecBuffer) : Outcome VecBuffer :=
  match op with
  | .insert at_ ch => b.insert at_ ch
  | .insert_text at_ text nl => (b.insert_text at_ text nl).map Prod.fst
  | .insert_newline at_ => b.insert_newline at_
  | .delete at_ => (b.delete at_).map Prod.fst
  | .replace f t text => b.replace f t text
  | .undo at_ => b.undo at_
  | .redo at_ => b.redo at_
  | .clear_command => .ok b.clear_command

/-- Run a sequence of operations: a returned `Err` leaves the buffer
unchanged (the source checks bounds before mutating); a panic aborts the
program, so no further state exists. -/
def runOps (ops : List BufOp) (b : VecBuffer) : VecBuffer :=
  match ops with
  | [] => b
  | op :: rest =>
    match applyOp op b with
    | .ok b' => runOps rest b'
    | .err _ => runOps rest b
    | .panicked => b

/-- Every plane holds at least one line, and so does every undo/redo capsule. -/
def planesNonempty (b : VecBuffer) : Prop :=
  b.text ≠ [] ∧ b.command ≠ [] ∧ b.terminal ≠ [] ∧
  (∀ caps ∈ b.past, caps.content ≠ []) ∧
  (∀ caps ∈ b.future, caps.content ≠ [])

instance (b : VecBuffer) : Decidable (planesNonempty b) := by
  unfold planesNonempty
  exact inferInstance

lemma ok_inj {α : Type} {x y : α} (h : Outcome.ok x = Outcome.ok y) : x = y := by
  cases h
  rfl

lemma getBuffer_ne_nil (b : VecBuffer) (h : planesNonempty b) :
    b.getBuffer ≠ [] := by
  obtain ⟨h1, h2, h3, -, -⟩ := h
  cases hp : b.plane <;> simp [VecBuffer.getBuffer, hp, h1, h2, h3]

lemma planes_setBuffer (b : VecBuffer) (ls : List Line)
    (h : planesNonempty b) (hls : ls ≠ []) : planesNonempty (b.setBuffer ls) := by
  obtain ⟨h1, h2, h3, h4, h5⟩ := h
  cases hp : b.plane <;>
    exact ⟨by simp [VecBuffer.setBuffer, hp, h1, hls],
           by simp [VecBuffer.setBuffer, hp, h2, hls],
           by simp [VecBuffer.setBuffer, hp, h3, hls],
           by simp [VecBuffer.setBuffer, hp]; exact h4,
           by simp [VecBuffer.setBuffer, hp]; exact h5⟩

lemma set_ne_nil {α : Type} (l : List α) (i : Nat) (x : α) (h : l ≠ []) :
    l.set i x ≠ [] := by
  intro hc
  have := congrArg List.length hc
  rw [List.length_set] at this
  simp only [List.length_nil] at this
  exact h (List.eq_nil_of_length_eq_zero this)

lemma take_append_ne_nil {α : Type} (l m r : List α) (hm : m ≠ []) :
    l ++ m ++ r ≠ [] := by
  intro hc
  rw [List.append_eq_nil, List.append_eq_nil] at hc
  exact hm hc.1.2

lemma appendToLast_ne_nil (suffix : Line) (ls : List Line) (h : ls ≠ []) :
    appendToLast suffix ls ≠ [] := by
  cases ls with
  | nil => exact absurd rfl h
  | cons l ls' => cases ls' <;> simp [appendToLast]

lemma mem_stackPush (c el : StateCapsule) (s : List StateCapsule)
    (h : c ∈ stackPush s el) : c = el ∨ c ∈ s := by
  unfold stackPush at h
  have := List.take_subset 1000 (el :: s) h
  simpa using this

lemma applyOp_preserves (op : BufOp) (b b' : VecBuffer)
    (h : applyOp op b = .ok b') (hinv : planesNonempty b) :
    planesNonempty b' := by
  have hgb : b.getBuffer ≠ [] := getBuffer_ne_nil b hinv
  cases op with
  | insert at_ ch =>
    unfold applyOp VecBuffer.insert at h
    dsimp only at h
    split at h
    · cases h
    · split at h
      · cases h
      · split at h
        · cases h
        · rw [← ok_inj h]
          exact planes_setBuffer b _ hinv (set_ne_nil _ _ _ hgb)
  | insert_text at_ text nl =>
    unfold applyOp VecBuffer.insert_text Outcome.map at h
    dsimp only at h
    split at h
    all_goals try cases h
    rename_i heval heq
    split at heq
    · cases heq
    · rename_i hlt
      split at heq
      · cases heq
      · split at heq
        · cases heq
        · split at heq
          · -- newline = true: take ++ lines ++ drop
            rw [← ok_inj heq]
            dsimp only
            exact planes_setBuffer b _ hinv
              (take_append_ne_nil _ _ _ (rustLines_ne_nil text (by assumption)))
          · split at heq
            · cases heq
            · rename_i l0 rest
              split at heq
              · -- single inserted line: set
                rw [← ok_inj heq]
                dsimp only
                exact planes_setBuffer b _ hinv (set_ne_nil _ _ _ hgb)
              · -- several lines: take ++ rest' ++ drop
                rw [← ok_inj heq]
                dsimp only
                refine planes_setBuffer b _ hinv ?_
                intro hc
                rw [List.append_eq_nil, List.append_eq_nil] at hc
                have := hc.1.1
                rw [List.take_eq_nil_iff] at this
                rcases this with hc' | hc'
                · cases hc'
                · exact hgb (by
                    have := congrArg List.length hc'
                    rw [List.length_set] at this
                    simp only [List.length_nil] at this
                    exact List.eq_nil_of_length_eq_zero this)
  | insert_newline at_ =>
    unfold applyOp VecBuffer.insert_newline at h
    dsimp only at h
    split at h
    · cases h
    · rw [← ok_inj h]
      exact planes_setBuffer b _ hinv (take_append_ne_nil _ _ _ (by simp))
  | delete at_ =>
    unfold applyOp VecBuffer.delete Outcome.map at h
    dsimp only at h
    split at h
    all_goals try cases h
    rename_i heval heq
    split at heq
    · cases heq
    · split at heq
      · cases heq
      · split at heq
        · split at heq
          · cases heq
          · split at heq
            · cases heq
            · rename_i hprev
              rw [← ok_inj heq]
              dsimp only
              refine planes_setBuffer b _ hinv
                (set_ne_nil _ _ _ ?_)
              intro hc
              rw [hc] at hprev
              simp at hprev
        · rw [← ok_inj heq]
          dsimp only
          exact planes_setBuffer b _ hinv (set_ne_nil _ _ _ hgb)
  | replace f t text =>
    unfold applyOp VecBuffer.replace at h
    dsimp only at h
    split at h
    · cases h
    · split at h
      · cases h
      · split at h
        · cases h
        · split at h
          · cases h
          · split at h
            · cases h
            · split at h
              · cases h
              · rw [← ok_inj h]
                refine planes_setBuffer b _ hinv
                  (take_append_ne_nil _ _ _ (appendToLast_ne_nil _ _ ?_))
                split
                · simp
                · simp
  | undo at_ =>
    unfold applyOp VecBuffer.undo at h
    dsimp only at h
    obtain ⟨h1, h2, h3, h4, h5⟩ := hinv
    split at h
    · cases h
    · rename_i caps rest hpast
      rw [← ok_inj h]
      refine ⟨h4 caps (by rw [hpast]; exact List.mem_cons_self _ _), h2, h3, ?_, ?_⟩
      · intro c hc
        exact h4 c (by rw [hpast]; exact List.mem_cons_of_mem _ hc)
      · intro c hc
        rcases mem_stackPush c _ _ hc with hc' | hc'
        · rw [hc']
          exact h1
        · exact h5 c hc'
  | redo at_ =>
    unfold applyOp VecBuffer.redo at h
    dsimp only at h
    obtain ⟨h1, h2, h3, h4, h5⟩ := hinv
    split at h
    · cases h
    · rename_i caps rest hfut
      rw [← ok_inj h]
      refine ⟨h5 caps (by rw [hfut]; exact List.mem_cons_self _ _), h2, h3, ?_, ?_⟩
      · intro c hc
        rcases mem_stackPush c _ _ hc with hc' | hc'
        · rw [hc']
          exact h1
        · exact h4 c hc'
      · intro c hc
        exact h5 c (by rw [hfut]; exact List.mem_cons_of_mem _ hc)
  | clear_command =>
    unfold applyOp VecBuffer.clear_command at h
    dsimp only at h
    obtain ⟨h1, h2, h3, h4, h5⟩ := hinv
    rw [← ok_inj h]
    exact ⟨h1, by simp, h3, h4, h5⟩

/-- C1 (amended): starting from any buffer whose planes (and stored undo/redo
capsules) are non-empty, every sequence of the listed operations other than
`delete_selection` and `delete_line` keeps all three planes at ≥ 1 line;
those two operations are excluded because `delete_selection` with
`from.col = 0` and `to.col ≥ len(lines[to.line])` — and `delete_line` on a
one-line plane — can remove every line (see the counterexample). -/
theorem buffer_ops_keep_planes_nonempty (ops : List BufOp) (b : VecBuffer)
    (h : planesNonempty b) : planesNonempty (runOps ops b) := by
  induction ops generalizing b with
  | nil => exact h
  | cons op rest ih =>
    unfold runOps
    cases happ : applyOp op b with
    | ok b' => exact ih b' (applyOp_preserves op b b' happ h)
    | err e => exact ih b h
    | panicked => exact h

/-- C1 (witness): the invariant run on a concrete operation sequence. -/
theorem buffer_ops_keep_planes_nonempty_witness :
    planesNonempty (runOps
      [.insert ⟨0, 0⟩ 'a', .insert_newline ⟨0, 0⟩, .delete ⟨1, 0⟩,
       .replace ⟨0, 0⟩ ⟨0, 1⟩ ['b'], .undo ⟨0, 0⟩, .clear_command]
      VecBuffer.default) :=
  buffer_ops_keep_planes_nonempty _ VecBuffer.default (by decide)

/-- `max_col` at a line of the normal plane, totalised for stating bounds
(out-of-range lines give 0; the theorems keep the index in range). -/
def maxColAt (b : VecBuffer) (i : Nat) : Nat :=
  ((b.text[i]?).getD []).length

lemma maxColAt_eq (b : VecBuffer) (i : Nat) (h : i < b.text.length) :
    maxColAt b i = (b.text.get ⟨i, h⟩).length := by
  unfold maxColAt
  rw [getElem?_eq_get b.text i h]
  rfl

lemma moveRight_bound_checked (s : EditorSt) (n : Nat)
    (hplane : s.buffer.plane = .Normal)
    (hne : s.buffer.text ≠ [])
    (hsL : s.shadowLine = s.cursor.line)
    (hsC : s.shadowCol = s.cursor.col)
    (hline : s.cursor.line ≤ s.buffer.max_line)
    (hcol : s.cursor.col ≤ maxColAt s.buffer s.cursor.line) :
    ∃ s', delegateActionBoundChecked s (.MoveRight n) = .ok s' ∧
      s'.buffer = s.buffer ∧
      s'.cursor.line ≤ s.buffer.max_line ∧
      s'.cursor.col ≤ maxColAt s.buffer s'.cursor.line := by
  have htl : 0 < s.buffer.text.length := List.length_pos.mpr hne
  have hml : s.buffer.max_line = s.buffer.text.length - 1 := rfl
  have hlt : s.cursor.line < s.buffer.text.length := by omega
  have hgb : s.buffer.getBuffer = s.buffer.text := by
    unfold VecBuffer.getBuffer
    rw [hplane]
  have hmc := maxColAt_eq s.buffer s.cursor.line hlt
  unfold delegateActionBoundChecked
  dsimp only [shadowMove, BaseAction.isVertical]
  rw [if_neg (show ¬(s.shadowLine > (s.buffer.max_line : Int)) by omega)]
  rw [if_neg (show ¬(s.shadowLine < 0) by omega)]
  rw [if_neg (show ¬((false = true) ∧ ¬(false = true)) by simp)]
  dsimp only
  rw [if_neg (show ¬(s.shadowLine < 0) by omega)]
  rw [show s.shadowLine.toNat = s.cursor.line by omega]
  rw [hgb, getElem?_eq_get _ _ hlt]
  dsimp only
  by_cases hov : s.shadowCol + (n : Int) > ((s.buffer.text.get ⟨s.cursor.line, hlt⟩).length : Int)
  · rw [if_pos hov]
    unfold resolveJumpEOL
    dsimp only
    rw [hgb, getElem?_eq_get _ _ hlt]
    dsimp only [delegateMoves, List.foldl, delegateMove, cursorMove, shadowMove]
    refine ⟨_, rfl, rfl, by dsimp only; omega, ?_⟩
    dsimp only
    rw [maxColAt_eq s.buffer s.cursor.line hlt]
    omega
  · rw [if_neg hov]
    rw [if_neg (show ¬(s.shadowCol + (n : Int) < 0) by omega)]
    rw [if_neg Bool.false_ne_true]
    dsimp only [delegateMove, cursorMove, shadowMove]
    refine ⟨_, rfl, rfl, by dsimp only; omega, ?_⟩
    dsimp only
    rw [maxColAt_eq s.buffer s.cursor.line hlt]
    omega

lemma moveLeft_bound_checked (s : EditorSt) (n : Nat)
    (hplane : s.buffer.plane = .Normal)
    (hne : s.buffer.text ≠ [])
    (hsL : s.shadowLine = s.cursor.line)
    (hsC : s.shadowCol = s.cursor.col)
    (hline : s.cursor.line ≤ s.buffer.max_line)
    (hcol : s.cursor.col ≤ maxColAt s.buffer s.cursor.line) :
    ∃ s', delegateActionBoundChecked s (.MoveLeft n) = .ok s' ∧
      s'.buffer = s.buffer ∧
      s'.cursor.line ≤ s.buffer.max_line ∧
      s'.cursor.col ≤ maxColAt s.buffer s'.cursor.line := by
  have htl : 0 < s.buffer.text.length := List.length_pos.mpr hne
  have hml : s.buffer.max_line = s.buffer.text.length - 1 := rfl
  have hlt : s.cursor.line < s.buffer.text.length := by omega
  have hgb : s.buffer.getBuffer = s.buffer.text := by
    unfold VecBuffer.getBuffer
    rw [hplane]
  have hmc := maxColAt_eq s.buffer s.cursor.line hlt
  unfold delegateActionBoundChecked
  dsimp only [shadowMove, BaseAction.isVertical]
  rw [if_neg (show ¬(s.shadowLine > (s.buffer.max_line : Int)) by omega)]
  rw [if_neg (show ¬(s.shadowLine < 0) by omega)]
  rw [if_neg (show ¬((false = true) ∧ ¬(false = true)) by simp)]
  dsimp only
  rw [if_neg (show ¬(s.shadowLine < 0) by omega)]
  rw [show s.shadowLine.toNat = s.cursor.line by omega]
  rw [hgb, getElem?_eq_get _ _ hlt]
  dsimp only
  rw [if_neg (show ¬(s.shadowCol - (n : Int) >
        ((s.buffer.text.get ⟨s.cursor.line, hlt⟩).length : Int)) by omega)]
  by_cases hund : s.shadowCol - (n : Int) < 0
  · rw [if_pos hund]
    dsimp only [resolveJumpSOL, delegateMoves, List.foldl, delegateMove,
      cursorMove, shadowMove]
    refine ⟨_, rfl, rfl, by dsimp only; omega, ?_⟩
    dsimp only
    rw [maxColAt_eq s.buffer s.cursor.line hlt]
    omega
  · rw [if_neg hund]
    rw [if_neg Bool.false_ne_true]
    dsimp only [delegateMove, cursorMove, shadowMove]
    refine ⟨_, rfl, rfl, by dsimp only; omega, ?_⟩
    dsimp only
    rw [maxColAt_eq s.buffer s.cursor.line hlt]
    omega

lemma moveDown_bound_checked (s : EditorSt) (n : Nat)
    (hplane : s.buffer.plane = .Normal)
    (hne : s.buffer.text ≠ [])
    (hsL : s.shadowLine = s.cursor.line)
    (hsC : s.shadowCol = s.cursor.col)
    (hline : s.cursor.line ≤ s.buffer.max_line)
    (hcol : s.cursor.col ≤ maxColAt s.buffer s.cursor.line) :
    ∃ s', delegateActionBoundChecked s (.MoveDown n) = .ok s' ∧
      s'.buffer = s.buffer ∧
      s'.cursor.line ≤ s.buffer.max_line ∧
      s'.cursor.col ≤ maxColAt s.buffer s'.cursor.line := by
  have htl : 0 < s.buffer.text.length := List.length_pos.mpr hne
  have hml : s.buffer.max_line = s.buffer.text.length - 1 := rfl
  have hlt : s.cursor.line < s.buffer.text.length := by omega
  have hmllt : s.buffer.max_line < s.buffer.text.length := by omega
  have hgb : s.buffer.getBuffer = s.buffer.text := by
    unfold VecBuffer.getBuffer
    rw [hplane]
  unfold delegateActionBoundChecked
  dsimp only [shadowMove, BaseAction.isVertical]
  by_cases hover : s.shadowLine + (n : Int) > (s.buffer.max_line : Int)
  · -- EOF rewrite: JumpEOF lands the cursor on the last line
    rw [if_pos hover]
    dsimp only [resolveJumpEOF, delegateMoves, List.foldl, delegateMove,
      cursorMove, shadowMove]
    rw [if_neg (show ¬((true = true) ∧ ¬(true = true)) by simp)]
    dsimp only
    rw [if_neg (show ¬((s.cursor.line : Int) - s.cursor.line +
          (s.buffer.max_line : Int) < 0) by omega)]
    rw [show ((s.cursor.line : Int) - s.cursor.line +
          (s.buffer.max_line : Int)).toNat = s.buffer.max_line by omega]
    rw [hgb, getElem?_eq_get _ _ hmllt]
    dsimp only
    by_cases hov2 : s.shadowCol >
        ((s.buffer.text.get ⟨s.buffer.max_line, hmllt⟩).length : Int)
    · rw [if_pos hov2]
      unfold resolveJumpEOL
      dsimp only
      rw [hgb]
      rw [show s.cursor.line - s.cursor.line + s.buffer.max_line =
            s.buffer.max_line by omega]
      rw [getElem?_eq_get _ _ hmllt]
      dsimp only [delegateMoves, List.foldl, delegateMove, cursorMove,
        shadowMove]
      refine ⟨_, rfl, rfl, by dsimp only; omega, ?_⟩
      dsimp only
      rw [maxColAt_eq s.buffer s.buffer.max_line hmllt]
      omega
    · rw [if_neg hov2]
      rw [if_neg (show ¬(s.shadowCol < 0) by omega)]
      rw [if_pos rfl]
      refine ⟨_, rfl, rfl, by dsimp only; omega, ?_⟩
      dsimp only
      rw [show s.cursor.line - s.cursor.line + s.buffer.max_line =
            s.buffer.max_line by omega]
      rw [maxColAt_eq s.buffer s.buffer.max_line hmllt]
      omega
  · -- in range: the vertical move is applied to the real cursor in advance
    rw [if_neg hover]
    rw [if_neg (show ¬(s.shadowLine + (n : Int) < 0) by omega)]
    rw [if_pos (show (true = true) ∧ ¬(false = true) by simp)]
    dsimp only [cursorMove]
    rw [if_neg (show ¬(s.shadowLine + (n : Int) < 0) by omega)]
    have hdlt : s.cursor.line + n < s.buffer.text.length := by omega
    rw [show (s.shadowLine + (n : Int)).toNat = s.cursor.line + n by omega]
    rw [hgb, getElem?_eq_get _ _ hdlt]
    dsimp only
    by_cases hov2 : s.shadowCol >
        ((s.buffer.text.get ⟨s.cursor.line + n, hdlt⟩).length : Int)
    · rw [if_pos hov2]
      unfold resolveJumpEOL
      dsimp only
      rw [hgb, getElem?_eq_get _ _ hdlt]
      dsimp only [delegateMoves, List.foldl, delegateMove, cursorMove,
        shadowMove]
      refine ⟨_, rfl, rfl, by dsimp only; omega, ?_⟩
      dsimp only
      rw [maxColAt_eq s.buffer (s.cursor.line + n) hdlt]
      omega
    · rw [if_neg hov2]
      rw [if_neg (show ¬(s.shadowCol < 0) by omega)]
      rw [if_pos rfl]
      refine ⟨_, rfl, rfl, by dsimp only; omega, ?_⟩
      dsimp only
      rw [maxColAt_eq s.buffer (s.cursor.line + n) hdlt]
      omega

lemma moveUp_bound_checked (s : EditorSt) (n : Nat)
    (hplane : s.buffer.plane = .Normal)
    (hne : s.buffer.text ≠ [])
    (hsL : s.shadowLine = s.cursor.line)
    (hsC : s.shadowCol = s.cursor.col)
    (hline : s.cursor.line ≤ s.buffer.max_line)
    (hcol : s.cursor.col ≤ maxColAt s.buffer s.cursor.line) :
    ∃ s', delegateActionBoundChecked s (.MoveUp n) = .ok s' ∧
      s'.buffer = s.buffer ∧
      s'.cursor.line ≤ s.buffer.max_line ∧
      s'.cursor.col ≤ maxColAt s.buffer s'.cursor.line := by
  have htl : 0 < s.buffer.text.length := List.length_pos.mpr hne
  have hml : s.buffer.max_line = s.buffer.text.length - 1 := rfl
  have hlt : s.cursor.line < s.buffer.text.length := by omega
  have hgb : s.buffer.getBuffer = s.buffer.text := by
    unfold VecBuffer.getBuffer
    rw [hplane]
  unfold delegateActionBoundChecked
  dsimp only [shadowMove, BaseAction.isVertical]
  rw [if_neg (show ¬(s.shadowLine - (n : Int) > (s.buffer.max_line : Int)) by
        omega)]
  by_cases hund : s.shadowLine - (n : Int) < 0
  · -- SOF rewrite: JumpSOF lands the cursor on line 0
    rw [if_pos hund]
    dsimp only [resolveJumpSOF, delegateMoves, List.foldl, delegateMove,
      cursorMove, shadowMove]
    rw [if_neg (show ¬((true = true) ∧ ¬(true = true)) by simp)]
    dsimp only
    rw [if_neg (show ¬((s.cursor.line : Int) - s.cursor.line < 0) by omega)]
    rw [show ((s.cursor.line : Int) - s.cursor.line).toNat = 0 by omega]
    rw [hgb, getElem?_eq_get _ _ htl]
    dsimp only
    by_cases hov2 : s.shadowCol > ((s.buffer.text.get ⟨0, htl⟩).length : Int)
    · rw [if_pos hov2]
      unfold resolveJumpEOL
      dsimp only
      rw [hgb]
      rw [show s.cursor.line - s.cursor.line = 0 by omega]
      rw [getElem?_eq_get _ _ htl]
      dsimp only [delegateMoves, List.foldl, delegateMove, cursorMove,
        shadowMove]
      refine ⟨_, rfl, rfl, by dsimp only; omega, ?_⟩
      dsimp only
      rw [maxColAt_eq s.buffer 0 htl]
      omega
    · rw [if_neg hov2]
      rw [if_neg (show ¬(s.shadowCol < 0) by omega)]
      rw [if_pos rfl]
      refine ⟨_, rfl, rfl, by dsimp only; omega, ?_⟩
      dsimp only
      rw [show s.cursor.line - s.cursor.line = 0 by omega]
      rw [maxColAt_eq s.buffer 0 htl]
      omega
  · -- in range: the vertical move is applied to the real cursor in advance
    rw [if_neg hund]
    rw [if_pos (show (true = true) ∧ ¬(false = true) by simp)]
    dsimp only [cursorMove]
    rw [if_neg (show ¬(s.shadowLine - (n : Int) < 0) by omega)]
    have hdlt : s.cursor.line - n < s.buffer.text.length := by omega
    rw [show (s.shadowLine - (n : Int)).toNat = s.cursor.line - n by omega]
    rw [hgb, getElem?_eq_get _ _ hdlt]
    dsimp only
    by_cases hov2 : s.shadowCol >
        ((s.buffer.text.get ⟨s.cursor.line - n, hdlt⟩).length : Int)
    · rw [if_pos hov2]
      unfold resolveJumpEOL
      dsimp only
      rw [hgb, getElem?_eq_get _ _ hdlt]
      dsimp only [delegateMoves, List.foldl, delegateMove, cursorMove,
        shadowMove]
      refine ⟨_, rfl, rfl, by dsimp only; omega, ?_⟩
      dsimp only
      rw [maxColAt_eq s.buffer (s.cursor.line - n) hdlt]
      omega
    · rw [if_neg hov2]
      rw [if_neg (show ¬(s.shadowCol < 0) by omega)]
      rw [if_pos rfl]
      refine ⟨_, rfl, rfl, by dsimp only; omega, ?_⟩
      dsimp only
      rw [maxColAt_eq s.buffer (s.cursor.line - n) hdlt]
      omega

/-- C7: bound-checked delegation of any movement primitive leaves the real
cursor in bounds: starting from a Normal-plane editor state whose shadow
cursor mirrors an in-bounds real cursor, `delegate_action_bound_checked`
completes without panicking, leaves the buffer unchanged, and the final
cursor satisfies `line ≤ max_line` and `col ≤ max_col(line)` — out-of-range
movements having been rewritten through `JumpEOF`/`JumpSOF`/`JumpEOL`/
`JumpSOL`. -/
theorem bound_checked_delegation_keeps_cursor_in_bounds
    (s : EditorSt) (a : BaseAction) (n : Nat)
    (hmove : a = .MoveUp n ∨ a = .MoveDown n ∨ a = .MoveLeft n ∨
      a = .MoveRight n)
    (hplane : s.buffer.plane = .Normal)
    (hne : s.buffer.text ≠ [])
    (hsL : s.shadowLine = s.cursor.line)
    (hsC : s.shadowCol = s.cursor.col)
    (hline : s.cursor.line ≤ s.buffer.max_line)
    (hcol : s.cursor.col ≤ maxColAt s.buffer s.cursor.line) :
    ∃ s', delegateActionBoundChecked s a = .ok s' ∧
      s'.buffer = s.buffer ∧
      s'.cursor.line ≤ s.buffer.max_line ∧
      s'.cursor.col ≤ maxColAt s.buffer s'.cursor.line := by
  rcases hmove with rfl | rfl | rfl | rfl
  · exact moveUp_bound_checked s n hplane hne hsL hsC hline hcol
  · exact moveDown_bound_checked s n hplane hne hsL hsC hline hcol
  · exact moveLeft_bound_checked s n hplane hne hsL hsC hline hcol
  · exact moveRight_bound_checked s n hplane hne hsL hsC hline hcol

/-- C7 (witness): a concrete out-of-range `MoveDown` on a two-line buffer,
clamped to the last line with the column pulled back to its end. -/
theorem bound_checked_delegation_keeps_cursor_in_bounds_witness :
    ∃ s', delegateActionBoundChecked
        ⟨VecBuffer.new [['x', 'x', 'x', 'x', 'x'], ['a']], ⟨0, 5⟩, 0, 5⟩
        (.MoveDown 2) = .ok s' ∧
      s'.buffer = VecBuffer.new [['x', 'x', 'x', 'x', 'x'], ['a']] ∧
      s'.cursor.line ≤ (VecBuffer.new [['x', 'x', 'x', 'x', 'x'], ['a']]).max_line ∧
      s'.cursor.col ≤ maxColAt (VecBuffer.new [['x', 'x', 'x', 'x', 'x'], ['a']])
        s'.cursor.line :=
  bound_checked_delegation_keeps_cursor_in_bounds
    ⟨VecBuffer.new [['x', 'x', 'x', 'x', 'x'], ['a']], ⟨0, 5⟩, 0, 5⟩
    (.MoveDown 2) 2 (by decide) (by decide) (by decide) (by decide) (by decide)
    (by decide) (by decide)

end Neotext
